import Mathlib

/-!
DNS-O-Matic provider of ddns-updater: update protocol and credential validation.

A shallow embedding of `internal/settings/providers/dnsomatic/provider.go`.

* Go strings are Lean `String`s (sequences of Unicode characters); every decision
  the program takes on a string compares it with ASCII text, so nothing depends on
  the byte encoding.
* `net.IP` is a byte slice, here a list of `Fin 256`; the nil slice is the empty list
  where the program takes its length, and `none` where it is compared with nil.
* A Go `error` is a `GoError`: a sentinel of package `errors`, a sentinel wrapped by
  `fmt.Errorf("%w...")` together with the text that follows the sentinel's own
  message, or an error produced by a collaborator and known by its message only.
* The HTTP client is a function from the request to what the transport answers.
* The functions of the Go standard library (`net`, `regexp`, `strings`) and of
  `github.com/qdm12/golibs/verification` that `Update` calls are modelled by
  executable definitions of their documented behaviour.
-/

/-! ## Package `strings` -/

namespace strings

/-- Go `strings.Contains` on character lists: `substr` occurs in `s` at some offset. -/
def containsList : List Char → List Char → Bool
  | [], substr => substr.isEmpty
  | c :: cs, substr => substr.isPrefixOf (c :: cs) || containsList cs substr

/-- Go `strings.Contains(s, substr)`. -/
def Contains (s substr : String) : Bool :=
  containsList s.data substr.data

end strings

/-! ## Package `errors` of the repository and Go error values -/

namespace errors

/-- Sentinel errors of `internal/settings/errors` that the provider refers to.
Only their identity matters: the provider never inspects their message. -/
inductive Sentinel where
  | ErrMalformedUsername
  | ErrMalformedPassword
  | ErrEmptyUsername
  | ErrEmptyPassword
  | ErrUnmarshalResponse
  | ErrBadHTTPStatus
  | ErrHostnameNotExists
  | ErrAuth
  | ErrBannedUserAgent
  | ErrAbuse
  | ErrDNSServerSide
  | ErrUnknownResponse
  | ErrNoIPInResponse
  | ErrIPReceivedMalformed
  | ErrIPReceivedMismatch
  deriving DecidableEq, Repr

end errors

/-- A Go `error` value as the provider produces or forwards it.
`Errorf w rest` is `fmt.Errorf("%w<format>", w, args...)`: it wraps the sentinel `w`
and its message is the message of `w` followed by `rest`. -/
inductive GoError where
  | sentinel (e : errors.Sentinel)
  | Errorf (w : errors.Sentinel) (rest : String)
  | other (msg : String)
  deriving DecidableEq, Repr

/-- Go `errors.Is(err, target)` for a sentinel target. -/
def GoError.Is : GoError → errors.Sentinel → Bool
  | .sentinel e, t => e == t
  | .Errorf w _, t => w == t
  | .other _, _ => false

/-! ## Package `net` of the Go standard library -/

namespace net

/-- Go `net.IP`, a slice of bytes. -/
abbrev IP := List (Fin 256)

/-- Go `net.IPv4len`. -/
def IPv4len : Nat := 4

/-- Go `net.IPv6len`. -/
def IPv6len : Nat := 16

/-- Go `net.v4InV6Prefix`. -/
def v4InV6Prefix : IP := [0, 0, 0, 0, 0, 0, 0, 0, 0, 0, 0xff, 0xff]

/-- Go `net.IPv4(a, b, c, d)`: the 16-byte form of the IPv4 address a.b.c.d. -/
def IPv4 (a b c d : Fin 256) : IP := v4InV6Prefix ++ [a, b, c, d]

/-- Go `net.isZeros`. -/
def isZeros (p : IP) : Bool := p.all (fun b => b == 0)

/-- Go `IP.To4`: the 4-byte form of an IPv4 address, nil (`none`) otherwise. -/
def IP.To4 (ip : IP) : Option IP :=
  if ip.length = IPv4len then some ip
  else if ip.length = IPv6len ∧ isZeros (ip.take 10) = true ∧
      ip.get? 10 = some 0xff ∧ ip.get? 11 = some 0xff then some (ip.drop 12)
  else none

/-- Go `IP.Equal`: an IPv4 address and the same address in 16-byte form are equal. -/
def IP.Equal (ip x : IP) : Bool :=
  if ip.length = x.length then ip == x
  else if ip.length = IPv4len ∧ x.length = IPv6len then
    x.take 12 == v4InV6Prefix && ip == x.drop 12
  else if ip.length = IPv6len ∧ x.length = IPv4len then
    ip.take 12 == v4InV6Prefix && ip.drop 12 == x
  else false

/-- The ASCII decimal digit of `n < 10`. -/
def digitChar (n : Nat) : Char := Char.ofNat (n + 48)

/-- Go `net.ubtoa`: the decimal text of a byte, without leading zeros. -/
def ubtoa (v : Fin 256) : List Char :=
  if v.val < 10 then [digitChar v.val]
  else if v.val < 100 then [digitChar (v.val / 10), digitChar (v.val % 10)]
  else [digitChar (v.val / 100), digitChar (v.val / 10 % 10), digitChar (v.val % 10)]

/-- Go `net.hexDigit[n]` for `n < 16`. -/
def hexDigit (n : Nat) : Char :=
  if n < 10 then Char.ofNat (n + 48) else Char.ofNat (n + 87)

/-- Go `net.hexString`: two hexadecimal digits per byte. -/
def hexString (b : IP) : List Char :=
  b.flatMap (fun tn => [hexDigit (tn.val / 16), hexDigit (tn.val % 16)])

/-- Go `net.appendHex`: hexadecimal text of a 16-bit group without leading zeros. -/
def appendHex (i : Nat) : List Char :=
  if i = 0 then ['0']
  else ([3, 2, 1, 0] : List Nat).flatMap
    (fun j => if i / 16 ^ j > 0 then [hexDigit (i / 16 ^ j % 16)] else [])

/-- The byte at index `i` of a slice known to be long enough (0 otherwise). -/
def byteAt (p : IP) (i : Nat) : Nat := ((p.get? i).map Fin.val).getD 0

/-- The inner loop of `IP.String`: from the even offset `j`, the end of the run of
all-zero 16-bit groups that starts there. -/
def zeroRunEnd (p : IP) : Nat → Nat → Nat
  | 0, j => j
  | fuel + 1, j =>
    if j < IPv6len ∧ byteAt p j = 0 ∧ byteAt p (j + 1) = 0 then zeroRunEnd p fuel (j + 2) else j

/-- The outer loop of `IP.String` looking for the longest run of zero groups:
`e` is the best run `(e0, e1)` so far (`none` for `e0 = e1 = -1`). A later run
replaces it only when strictly longer. -/
def longestZeroRun (p : IP) : Nat → Nat → Option (Nat × Nat) → Option (Nat × Nat)
  | 0, _, e => e
  | fuel + 1, i, e =>
    if i < IPv6len then
      let j := zeroRunEnd p 8 i
      let best : Nat := match e with
        | none => 0
        | some (e0, e1) => e1 - e0
      if j > i ∧ j - i > best then longestZeroRun p fuel (j + 2) (some (i, j))
      else longestZeroRun p fuel (i + 2) e
    else e

/-- The printing loop of `IP.String` for a 16-byte address, from offset `i`. -/
def printGroups (p : IP) (e : Option (Nat × Nat)) : Nat → Nat → List Char
  | 0, _ => []
  | fuel + 1, i =>
    if i < IPv6len then
      match e with
      | some (e0, e1) =>
        if i = e0 then
          if e1 ≥ IPv6len then [':', ':']
          else [':', ':'] ++ appendHex (byteAt p e1 * 256 + byteAt p (e1 + 1))
            ++ printGroups p e fuel (e1 + 2)
        else
          (if i > 0 then [':'] else []) ++ appendHex (byteAt p i * 256 + byteAt p (i + 1))
            ++ printGroups p e fuel (i + 2)
      | none =>
        (if i > 0 then [':'] else []) ++ appendHex (byteAt p i * 256 + byteAt p (i + 1))
          ++ printGroups p e fuel (i + 2)
    else []

/-- Go `IP.String` as a character list. -/
def IP.chars (ip : IP) : List Char :=
  if ip.length = 0 then "<nil>".data
  else
    match IP.To4 ip with
    | some [a, b, c, d] => ubtoa a ++ '.' :: ubtoa b ++ '.' :: ubtoa c ++ '.' :: ubtoa d
    | _ =>
      if ip.length ≠ IPv6len then '?' :: hexString ip
      else
        let e := match longestZeroRun ip 8 0 none with
          | some (e0, e1) => if e1 - e0 ≤ 2 then none else some (e0, e1)
          | none => none
        printGroups ip e 8 0

/-- Go `IP.String`: dotted decimal for an IPv4 address (in either form), the
canonical colon-hexadecimal text for any other 16-byte address. -/
def IP.String (ip : IP) : String := String.mk (IP.chars ip)

/-- Go `net.big`: the bound at which `dtoi` and `xtoi` give up. -/
def big : Nat := 0xFFFFFF

/-- The loop of Go `net.dtoi`: `n` is the number read so far, `i` the count of
characters consumed. The result is `(n, i, ok)`. -/
def dtoiLoop : List Char → Nat → Nat → Nat × Nat × Bool
  | [], n, i => if i = 0 then (0, 0, false) else (n, i, true)
  | c :: cs, n, i =>
    if '0' ≤ c ∧ c ≤ '9' then
      let n := n * 10 + (c.toNat - '0'.toNat)
      if n ≥ big then (big, i, false) else dtoiLoop cs n (i + 1)
    else if i = 0 then (0, 0, false) else (n, i, true)

/-- Go `net.dtoi`: decimal to integer; number, characters consumed, success. -/
def dtoi (s : List Char) : Nat × Nat × Bool := dtoiLoop s 0 0

/-- The loop of Go `net.xtoi`. -/
def xtoiLoop : List Char → Nat → Nat → Nat × Nat × Bool
  | [], n, i => if i = 0 then (0, i, false) else (n, i, true)
  | c :: cs, n, i =>
    if '0' ≤ c ∧ c ≤ '9' then
      let n := n * 16 + (c.toNat - '0'.toNat)
      if n ≥ big then (0, i, false) else xtoiLoop cs n (i + 1)
    else if 'a' ≤ c ∧ c ≤ 'f' then
      let n := n * 16 + (c.toNat - 'a'.toNat) + 10
      if n ≥ big then (0, i, false) else xtoiLoop cs n (i + 1)
    else if 'A' ≤ c ∧ c ≤ 'F' then
      let n := n * 16 + (c.toNat - 'A'.toNat) + 10
      if n ≥ big then (0, i, false) else xtoiLoop cs n (i + 1)
    else if i = 0 then (0, i, false) else (n, i, true)

/-- Go `net.xtoi`: hexadecimal to integer; number, characters consumed, success. -/
def xtoi (s : List Char) : Nat × Nat × Bool := xtoiLoop s 0 0

/-- The loop of Go `net.parseIPv4` over the four fields; `p` holds the bytes
parsed so far. `strict` is the rule of Go 1.17 and later that a field of more than
one digit must not start with `0`; earlier releases read such a field as decimal. -/
def parseIPv4Loop (strict : Bool) : Nat → List Char → IP → Option IP
  | 0, s, p => if s.length ≠ 0 then none else some p
  | fuel + 1, s, p =>
    if s.length = 0 then none
    else
      let s1 : Option (List Char) :=
        if p.length > 0 then (if s.head? ≠ some '.' then none else some (s.drop 1)) else some s
      match s1 with
      | none => none
      | some s =>
        match dtoi s with
        | (n, c, ok) =>
          if h : ok = false ∨ ¬ n < 256 then none
          else if strict = true ∧ c > 1 ∧ s.head? = some '0' then none
          else parseIPv4Loop strict fuel (s.drop c) (p ++ [⟨n, by omega⟩])

/-- Go `net.parseIPv4`: a dotted-decimal IPv4 address, in 16-byte form. -/
def parseIPv4 (strict : Bool) (s : List Char) : Option IP :=
  match parseIPv4Loop strict IPv4len s [] with
  | some [a, b, c, d] => some (IPv4 a b c d)
  | _ => none

/-- The main loop of Go `net.parseIPv6`: `ip` holds the bytes stored so far (its
length is the index `i` of the source) and `ellipsis` the position of `::`.
The result is the state when the loop is left, `none` when the source returns nil
from inside the loop. Every round that continues stores two bytes, so eight
rounds reach `i = IPv6len`. -/
def parseIPv6Loop (strict : Bool) :
    Nat → List Char → IP → Option Nat → Option (List Char × IP × Option Nat)
  | 0, s, ip, ellipsis => some (s, ip, ellipsis)
  | fuel + 1, s, ip, ellipsis =>
    if ¬ ip.length < IPv6len then some (s, ip, ellipsis)
    else
      match xtoi s with
      | (n, c, ok) =>
        if ok = false ∨ n > 0xFFFF then none
        else if c < s.length ∧ s.get? c = some '.' then
          if ellipsis = none ∧ ip.length ≠ IPv6len - IPv4len then none
          else if ip.length + IPv4len > IPv6len then none
          else
            match parseIPv4 strict s with
            | none => none
            | some ip4 => some ([], ip ++ ip4.drop 12, ellipsis)
        else
          let ip := ip ++ [Fin.ofNat (n / 256), Fin.ofNat n]
          let s := s.drop c
          if s.length = 0 then some (s, ip, ellipsis)
          else if s.head? ≠ some ':' ∨ s.length = 1 then none
          else
            let s := s.drop 1
            if s.head? = some ':' then
              if ellipsis.isSome then none
              else
                let s := s.drop 1
                if s.length = 0 then some (s, ip, some ip.length)
                else parseIPv6Loop strict fuel s ip (some ip.length)
            else parseIPv6Loop strict fuel s ip ellipsis

/-- Go `net.parseIPv6` (without zone): colon-hexadecimal text with at most one
`::` and an optional trailing dotted-decimal IPv4 part. -/
def parseIPv6 (strict : Bool) (s : List Char) : Option IP :=
  let lead : Bool := s.length ≥ 2 ∧ s.head? = some ':' ∧ s.get? 1 = some ':'
  let s := if lead then s.drop 2 else s
  let ellipsis : Option Nat := if lead then some 0 else none
  if lead = true ∧ s.length = 0 then some (List.replicate IPv6len 0)
  else
    match parseIPv6Loop strict 8 s [] ellipsis with
    | none => none
    | some (s, ip, ellipsis) =>
      if s.length ≠ 0 then none
      else if ip.length < IPv6len then
        match ellipsis with
        | none => none
        | some e => some (ip.take e ++ List.replicate (IPv6len - ip.length) 0 ++ ip.drop e)
      else if ellipsis.isSome then none
      else some ip

/-- The scan of Go `net.ParseIP` for the first `.` or `:`, which selects the
parser applied to the whole text `all`. -/
def parseIPScan (strict : Bool) (all : List Char) : List Char → Option IP
  | [] => none
  | c :: cs =>
    if c = '.' then parseIPv4 strict all
    else if c = ':' then parseIPv6 strict all
    else parseIPScan strict all cs

/-- Go `net.ParseIP`: the 16-byte address written by `s`, nil (`none`) when `s` is
not the text of an IP address. -/
def ParseIP (strict : Bool) (s : String) : Option IP :=
  parseIPScan strict s.data s.data

end net

/-! ## Package `regexp` of the Go standard library

Go's `regexp` implements leftmost-first matching: the match begins as early as
possible in the input and, among the matches beginning there, is the one a
backtracking search finds first. `Regex.run` is that backtracking search: it lists
the remaining inputs of all matches that begin at the start of the input, in the
order the search finds them. -/

namespace regexp

/-- The abstract syntax of the patterns used by the program. A class `cls neg ranges`
matches one character inside (outside when `neg`) the listed inclusive ranges. -/
inductive Regex where
  | empty : Regex
  | cls : Bool → List (Char × Char) → Regex
  | cat : Regex → Regex → Regex
  | alt : Regex → Regex → Regex
  | opt : Regex → Regex
  | plus : Regex → Regex
  deriving DecidableEq, Repr

/-- Whether `c` lies in one of the inclusive ranges. -/
def inRanges (ranges : List (Char × Char)) (c : Char) : Bool :=
  ranges.any (fun r => decide (r.1 ≤ c) && decide (c ≤ r.2))

/-- Whether the class `cls neg ranges` matches `c`. -/
def classMatches (neg : Bool) (ranges : List (Char × Char)) (c : Char) : Bool :=
  if neg then !inRanges ranges c else inRanges ranges c

/-- Greedy `x+`: after one `x` the search first tries another round, then stops.
`step` is the search for one `x`. A round that consumed nothing is not repeated.
With `fuel` above the length of the input no round is cut short. -/
def plusRun (step : List Char → List (List Char)) : Nat → List Char → List (List Char)
  | 0, _ => []
  | fuel + 1, s =>
    (step s).flatMap
      (fun t => (if t.length < s.length then plusRun step fuel t else []) ++ [t])

/-- The backtracking search: remaining inputs of the matches of the pattern at the
start of `s`, preferred match first. -/
def Regex.run : Regex → List Char → List (List Char)
  | .empty, s => [s]
  | .cls _ _, [] => []
  | .cls neg ranges, c :: s => if classMatches neg ranges c then [s] else []
  | .cat a b, s => (a.run s).flatMap (fun t => b.run t)
  | .alt a b, s => a.run s ++ b.run s
  | .opt a, s => a.run s ++ [s]
  | .plus a, s => plusRun (fun t => a.run t) (s.length + 1) s

/-- The literal character `c`. -/
def chr (c : Char) : Regex := .cls false [(c, c)]

/-- The pattern `x{n}`: exactly `n` copies. -/
def Regex.times (x : Regex) : Nat → Regex
  | 0 => .empty
  | n + 1 => .cat x (Regex.times x n)

/-- The pattern `x{0,m}`, compiled by Go as nested options `(x(x(x)?)?)?`. -/
def Regex.upTo (x : Regex) : Nat → Regex
  | 0 => .empty
  | m + 1 => .opt (.cat x (Regex.upTo x m))

/-- The pattern `x{n,m}` for `n ≤ m`. -/
def Regex.rep (x : Regex) (n m : Nat) : Regex :=
  .cat (Regex.times x n) (Regex.upTo x (m - n))

/-- The leftmost match at or after the start of `s`: the text skipped before the
match, the matched text and the input that remains after it. -/
def Regex.find (re : Regex) : List Char → Option (List Char × List Char × List Char)
  | [] =>
    match (re.run []).head? with
    | some rest => some ([], [], rest)
    | none => none
  | c :: cs =>
    match (re.run (c :: cs)).head? with
    | some rest => some ([], (c :: cs).take ((c :: cs).length - rest.length), rest)
    | none =>
      match Regex.find re cs with
      | some (skipped, m, rest) => some (c :: skipped, m, rest)
      | none => none

/-- The loop of Go `Regexp.allMatches` with no limit on the number of matches:
successive non-overlapping leftmost matches. `afterMatch` tells that the previous
match ended at the current position; an empty match there is not delivered.
After an empty match at the current position the search moves one character on. -/
def Regex.allMatches (re : Regex) : Nat → Bool → List Char → List (List Char)
  | 0, _, _ => []
  | fuel + 1, afterMatch, s =>
    match re.find s with
    | none => []
    | some (skipped, m, rest) =>
      if skipped.length = 0 ∧ m.length = 0 then
        (if afterMatch then [] else [m]) ++
          (match s with
           | [] => []
           | _ :: t => Regex.allMatches re fuel false t)
      else m :: Regex.allMatches re fuel true rest

/-- Go `Regexp.FindAllString(s, -1)`: all successive matches of the pattern in `s`.
Every round of the loop moves at least one character on or ends the loop, so the
fuel is never exhausted. -/
def Regex.FindAllString (re : Regex) (s : String) : List String :=
  (Regex.allMatches re (s.length + 1) false s.data).map String.mk

end regexp

/-! ## Package `github.com/qdm12/golibs/verification` -/

namespace verification

open regexp

/-- The class `\d` (ASCII digits). -/
def digit : Regex := .cls false [('0', '9')]

/-- The group `(25[0-5]|2[0-4]\d|[0-1]?\d?\d)` of `regexIPv4`. -/
def octet : Regex :=
  .alt (.cat (chr '2') (.cat (chr '5') (.cls false [('0', '5')])))
    (.alt (.cat (chr '2') (.cat (.cls false [('0', '4')]) digit))
      (.cat (.opt (.cls false [('0', '1')])) (.cat (.opt digit) digit)))

/-- The pattern `regexIPv4`:
`(25[0-5]|2[0-4]\d|[0-1]?\d?\d)(\.(25[0-5]|2[0-4]\d|[0-1]?\d?\d)){3}`. -/
def regexIPv4 : Regex :=
  .cat octet (Regex.times (.cat (chr '.') octet) 3)

/-- The class `[0-9a-fA-F]`. -/
def hex : Regex := .cls false [('0', '9'), ('a', 'f'), ('A', 'F')]

/-- The group `[0-9a-fA-F]{1,4}`. -/
def hex4 : Regex := Regex.rep hex 1 4

/-- The group `([0-9a-fA-F]{1,4}:)`. -/
def hexColon : Regex := .cat hex4 (chr ':')

/-- The group `(:[0-9a-fA-F]{1,4})`. -/
def colonHex : Regex := .cat (chr ':') hex4

/-- The group `(25[0-5]|(2[0-4]|1{0,1}[0-9]){0,1}[0-9])` of `regexIPv6`. -/
def octet6 : Regex :=
  .alt (.cat (chr '2') (.cat (chr '5') (.cls false [('0', '5')])))
    (.cat (Regex.rep (.alt (.cat (chr '2') (.cls false [('0', '4')]))
        (.cat (Regex.rep (chr '1') 0 1) digit)) 0 1) digit)

/-- The tail `((25[0-5]|...)\.){3,3}(25[0-5]|...)` of the IPv4-in-IPv6 forms. -/
def dotted6 : Regex :=
  .cat (Regex.rep (.cat octet6 (chr '.')) 3 3) octet6

/-- The pattern `regexIPv6`, an alternation of twelve forms:
`([0-9a-fA-F]{1,4}:){7,7}[0-9a-fA-F]{1,4}`,
`([0-9a-fA-F]{1,4}:){1,7}:`,
`([0-9a-fA-F]{1,4}:){1,6}:[0-9a-fA-F]{1,4}`,
`([0-9a-fA-F]{1,4}:){1,5}(:[0-9a-fA-F]{1,4}){1,2}`,
`([0-9a-fA-F]{1,4}:){1,4}(:[0-9a-fA-F]{1,4}){1,3}`,
`([0-9a-fA-F]{1,4}:){1,3}(:[0-9a-fA-F]{1,4}){1,4}`,
`([0-9a-fA-F]{1,4}:){1,2}(:[0-9a-fA-F]{1,4}){1,5}`,
`[0-9a-fA-F]{1,4}:((:[0-9a-fA-F]{1,4}){1,6})`,
`:((:[0-9a-fA-F]{1,4}){1,7}|:)`,
`fe80:(:[0-9a-fA-F]{0,4}){0,4}%[0-9a-zA-Z]{1,}`,
`::(ffff(:0{1,4}){0,1}:){0,1}` followed by the dotted tail,
`([0-9a-fA-F]{1,4}:){1,4}:` followed by the dotted tail. -/
def regexIPv6 : Regex :=
  .alt (.cat (Regex.rep hexColon 7 7) hex4)
  (.alt (.cat (Regex.rep hexColon 1 7) (chr ':'))
  (.alt (.cat (Regex.rep hexColon 1 6) colonHex)
  (.alt (.cat (Regex.rep hexColon 1 5) (Regex.rep colonHex 1 2))
  (.alt (.cat (Regex.rep hexColon 1 4) (Regex.rep colonHex 1 3))
  (.alt (.cat (Regex.rep hexColon 1 3) (Regex.rep colonHex 1 4))
  (.alt (.cat (Regex.rep hexColon 1 2) (Regex.rep colonHex 1 5))
  (.alt (.cat hexColon (Regex.rep colonHex 1 6))
  (.alt (.cat (chr ':') (.alt (Regex.rep colonHex 1 7) (chr ':')))
  (.alt (.cat (chr 'f') (.cat (chr 'e') (.cat (chr '8') (.cat (chr '0') (.cat (chr ':')
      (.cat (Regex.rep (.cat (chr ':') (Regex.rep hex 0 4)) 0 4)
        (.cat (chr '%') (.plus (.cls false [('0', '9'), ('a', 'z'), ('A', 'Z')])))))))))
  (.alt (.cat (chr ':') (.cat (chr ':')
      (.cat (Regex.rep (.cat (chr 'f') (.cat (chr 'f') (.cat (chr 'f') (.cat (chr 'f')
          (.cat (Regex.rep (.cat (chr ':') (Regex.rep (chr '0') 1 4)) 0 1) (chr ':')))))) 0 1)
        dotted6)))
    (.cat (Regex.rep hexColon 1 4) (.cat (chr ':') dotted6))))))))))))

/-- The method `Verifier.SearchIPv4`: `FindAllString(s, -1)` with `regexIPv4`. -/
def SearchIPv4 (s : String) : List String := Regex.FindAllString regexIPv4 s

/-- The method `Verifier.SearchIPv6`: `FindAllString(s, -1)` with `regexIPv6`. -/
def SearchIPv6 (s : String) : List String := Regex.FindAllString regexIPv6 s

end verification

/-! ## Packages `net/url` and `net/http` of the Go standard library -/

namespace url

/-- Go `url.Values`, a map from a key to its values, as an association list in
which a key occurs at most once. -/
abbrev Values := List (String × List String)

/-- Go `Values.Set(key, value)`: the key now has the single value `value`. -/
def Values.Set (v : Values) (key value : String) : Values :=
  (key, [value]) :: v.filter (fun kv => kv.1 != key)

/-- The values stored under `key`, none when the key is absent. -/
def Values.values (v : Values) (key : String) : List String :=
  (v.lookup key).getD []

/-- Go `Values.Get(key)`: the first value of the key, the empty string without one. -/
def Values.Get (v : Values) (key : String) : String :=
  (Values.values v key).headD ""

/-- Go `Values.Has(key)`. -/
def Values.Has (v : Values) (key : String) : Bool :=
  (v.lookup key).isSome

/-- Go `url.URL` as far as `Update` fills it. `User` is the pair given to
`url.UserPassword`. `Query` holds the parameters whose encoding
(`values.Encode()`) is the `RawQuery` of the source. -/
structure URL where
  Scheme : String
  Host : String
  Path : String
  User : String × String
  Query : Values
  deriving DecidableEq, Repr

end url

namespace http

/-- Go `http.StatusOK`. -/
def StatusOK : Int := 200

/-- Go `http.MethodGet`. -/
def MethodGet : String := "GET"

/-- Go `http.Request` as `Update` builds it: method, URL and headers. -/
structure Request where
  Method : String
  URL : url.URL
  Header : List (String × String)
  deriving DecidableEq, Repr

/-- Go `http.Response` as `Update` reads it: the status code and the outcome of
`io.ReadAll(response.Body)`, the body text or the message of the read error. -/
structure Response where
  StatusCode : Int
  Body : Except String String

/-- Go `http.Client` seen through `client.Do`: the response to a request, or the
message of the transport error. -/
structure Client where
  Do : Request → Except String Response

end http

/-! ## Collaborators of the provider inside the repository -/

namespace constants

/-- Modelled from the spec: the response tokens of `internal/settings/constants`,
missing from the sources at hand. The spec lists the failure tokens `nohost`,
`notfqdn`, `badauth`, `badagent`, `abuse`, `dnserr` and a numeric vendor error code. -/
def Nohost : String := "nohost"

/-- Modelled from the spec: the token `notfqdn`. -/
def Notfqdn : String := "notfqdn"

/-- Modelled from the spec: the token `badauth`. -/
def Badauth : String := "badauth"

/-- Modelled from the spec: the token `badagent`. -/
def Badagent : String := "badagent"

/-- Modelled from the spec: the token `abuse`. -/
def Abuse : String := "abuse"

/-- Modelled from the spec: the numeric vendor error code, which the name of the
constant spells out as 911. -/
def Nineoneone : String := "911"

end constants

namespace common

/-- The methods of the interface `common.Matcher` that the provider calls. -/
structure Matcher where
  DNSOMaticUsername : String → Bool
  DNSOMaticPassword : String → Bool

end common

namespace dnsomatic

open errors

/-- The anonymous struct `extraSettings` decoded from the JSON data in `New`. -/
structure extraSettings where
  Username : String
  Password : String
  UseProviderIP : Bool
  deriving DecidableEq, Repr

/-- What the provider takes from code that is not in the sources at hand.
`BuildURLQueryHostname` is `utils.BuildURLQueryHostname`, `UserAgent` the header
value set by `headers.SetUserAgent`, `Unmarshal` is `json.Unmarshal` into
`extraSettings` (the settings or the message of the decoding error), and
`strictIPv4` tells whether `net.ParseIP` rejects leading zeros (Go 1.17 and later). -/
structure Env where
  BuildURLQueryHostname : String → String → String
  UserAgent : String
  Unmarshal : String → Except String extraSettings
  strictIPv4 : Bool

/-- The struct `Provider`. The type of `ipVersion` (`ipversion.IPVersion`) is not
in the sources at hand and is taken as a parameter. -/
structure Provider (IPVersion : Type) where
  domain : String
  host : String
  ipVersion : IPVersion
  username : String
  password : String
  useProviderIP : Bool
  matcher : common.Matcher

variable {IPVersion : Type}

/-- The method `Provider.isValid`: `none` is the nil error. Go's `len` counts bytes. -/
def Provider.isValid (p : Provider IPVersion) : Option GoError :=
  if !p.matcher.DNSOMaticUsername p.username then
    some (.Errorf .ErrMalformedUsername (": " ++ p.username))
  else if !p.matcher.DNSOMaticPassword p.password then
    some (.sentinel .ErrMalformedPassword)
  else if p.username.utf8ByteSize = 0 then
    some (.sentinel .ErrEmptyUsername)
  else if p.password.utf8ByteSize = 0 then
    some (.sentinel .ErrEmptyPassword)
  else none

/-- The constructor `New`: decode the settings, build the provider, validate it. -/
def New (env : Env) (data : String) (domain host : String) (ipVersion : IPVersion)
    (matcher : common.Matcher) : Except GoError (Provider IPVersion) :=
  match env.Unmarshal data with
  | .error err => .error (.other err)
  | .ok settings =>
    let p : Provider IPVersion :=
      { domain := domain
        host := host
        ipVersion := ipVersion
        username := settings.Username
        password := settings.Password
        useProviderIP := settings.UseProviderIP
        matcher := matcher }
    match p.isValid with
    | some err => .error err
    | none => .ok p

/-- The query parameters set by `Update` (lines 113 to 125 of the source). -/
def Provider.values (env : Env) (p : Provider IPVersion) (ip : net.IP) : url.Values :=
  let values : url.Values := []
  let values := if !p.useProviderIP then values.Set "myip" (net.IP.String ip) else values
  let values := values.Set "wildcard" "NOCHG"
  let values :=
    if p.host = "*" then (values.Set "hostname" p.domain).Set "wildcard" "ON"
    else values.Set "hostname" (env.BuildURLQueryHostname p.host p.domain)
  let values := values.Set "mx" "NOCHG"
  values.Set "backmx" "NOCHG"

/-- The request sent by `Update` (lines 107 to 132 of the source): a GET of the
update URL with the credentials as user information and the user-agent header.
`http.NewRequestWithContext` succeeds on this method and URL with a non-nil context. -/
def Provider.request (env : Env) (p : Provider IPVersion) (ip : net.IP) : http.Request :=
  { Method := http.MethodGet
    URL :=
      { Scheme := "https"
        Host := "updates.dnsomatic.com"
        Path := "/nic/update"
        User := (p.username, p.password)
        Query := p.values env ip }
    Header := [("User-Agent", env.UserAgent)] }

/-- The interpretation of a response by `Update` (lines 146 to 187 of the source):
status check, classification of the body `s`, extraction of the IP. -/
def Provider.outcome (env : Env) (p : Provider IPVersion) (ip : net.IP)
    (StatusCode : Int) (s : String) : Except GoError net.IP :=
  if StatusCode ≠ http.StatusOK then
    .error (.Errorf .ErrBadHTTPStatus (": " ++ toString StatusCode ++ ": " ++ s))
  else if s = constants.Nohost ∨ s = constants.Notfqdn then
    .error (.sentinel .ErrHostnameNotExists)
  else if s = constants.Badauth then
    .error (.sentinel .ErrAuth)
  else if s = constants.Badagent then
    .error (.sentinel .ErrBannedUserAgent)
  else if s = constants.Abuse then
    .error (.sentinel .ErrAbuse)
  else if s = "dnserr" ∨ s = constants.Nineoneone then
    .error (.Errorf .ErrDNSServerSide (": " ++ s))
  else if !strings.Contains s "nochg" && !strings.Contains s "good" then
    .error (.Errorf .ErrUnknownResponse (": " ++ s))
  else
    let ips : List String :=
      if (net.IP.To4 ip).isSome then verification.SearchIPv4 s
      else verification.SearchIPv6 s
    match ips with
    | [] => .error (.sentinel .ErrNoIPInResponse)
    | ips0 :: _ =>
      match net.ParseIP env.strictIPv4 ips0 with
      | none => .error (.Errorf .ErrIPReceivedMalformed (": " ++ ips0))
      | some newIP =>
        if !p.useProviderIP && !net.IP.Equal ip newIP then
          .error (.Errorf .ErrIPReceivedMismatch (": " ++ net.IP.String newIP))
        else .ok newIP

/-- The method `Provider.Update`: build the request, send it through the client,
read the body, interpret the response. -/
def Provider.Update (env : Env) (p : Provider IPVersion) (client : http.Client)
    (ip : net.IP) : Except GoError net.IP :=
  match client.Do (p.request env ip) with
  | .error err => .error (.other err)
  | .ok response =>
    match response.Body with
    | .error err => .error (.Errorf .ErrUnmarshalResponse (": " ++ err))
    | .ok s => p.outcome env ip response.StatusCode s

end dnsomatic

/-! ## Package `regex` of the repository: the credential matchers -/

namespace regexp

/-- A compiled pattern of the form `x`, `^x`, `x$` or `^x$` (no flags): `bot` tells
that the pattern starts with `^`, which matches at the beginning of the text only,
and `eot` that it ends with `$`, which matches at the end of the text only. -/
structure Regexp where
  bot : Bool
  expr : Regex
  eot : Bool
  deriving DecidableEq, Repr

/-- Whether `expr` (followed by `$` when `eot`) has a match that begins at the start
of `s`: with `$` some match has to consume all of `s`. -/
def Regexp.matchesAt (re : Regexp) (s : List Char) : Bool :=
  if re.eot then (re.expr.run s).contains [] else !(re.expr.run s).isEmpty

/-- Whether the pattern without its `^` has a match that begins at some position
of `s`, the end of the text included. -/
def Regexp.matchesFrom (re : Regexp) : List Char → Bool
  | [] => re.matchesAt []
  | c :: cs => re.matchesAt (c :: cs) || Regexp.matchesFrom re cs

/-- Go `Regexp.MatchString(s)`: whether `s` contains any match of the pattern. -/
def Regexp.MatchString (re : Regexp) (s : String) : Bool :=
  if re.bot then re.matchesAt s.data else re.matchesFrom s.data

end regexp

namespace regex

open regexp

/-- The struct `matcher`: the compiled patterns. -/
structure matcher where
  goDaddyKey : Regexp
  goDaddySecret : Regexp
  duckDNSToken : Regexp
  namecheapPassword : Regexp
  dreamhostKey : Regexp
  cloudflareKey : Regexp
  cloudflareUserServiceKey : Regexp
  deriving DecidableEq, Repr

/-- The class `[A-Za-z0-9]`. -/
def upperLowerDigit : Regex := .cls false [('A', 'Z'), ('a', 'z'), ('0', '9')]

/-- The class `[a-zA-Z0-9]`. -/
def lowerUpperDigit : Regex := .cls false [('a', 'z'), ('A', 'Z'), ('0', '9')]

/-- The class `[a-f0-9]`. -/
def lowerHex : Regex := .cls false [('a', 'f'), ('0', '9')]

/-- The class `.` without the flag `s`: any character except the newline. -/
def anyCharNotNL : Regex := .cls true [('\n', '\n')]

/-- The matcher that `NewMatcher` builds, one compiled pattern after the other.
The patterns are, in the order of the source,
`^[A-Za-z0-9]{10,14}\_[A-Za-z0-9]{22}$`, `^[A-Za-z0-9]{22}$`,
`^[a-f0-9]{8}\-[a-f0-9]{4}\-[a-f0-9]{4}\-[a-f0-9]{4}\-[a-f0-9]{12}$`,
`^[a-f0-9]{32}$`, `^[a-zA-Z0-9]{16}$`, `^[a-zA-Z0-9]+$` and `^v1\.0.+$`. -/
def patterns : matcher :=
  { goDaddyKey :=
      ⟨true, .cat (Regex.rep upperLowerDigit 10 14)
        (.cat (chr '_') (Regex.times upperLowerDigit 22)), true⟩
    goDaddySecret := ⟨true, Regex.times upperLowerDigit 22, true⟩
    duckDNSToken :=
      ⟨true, .cat (Regex.times lowerHex 8) (.cat (chr '-')
        (.cat (Regex.times lowerHex 4) (.cat (chr '-')
        (.cat (Regex.times lowerHex 4) (.cat (chr '-')
        (.cat (Regex.times lowerHex 4) (.cat (chr '-')
        (Regex.times lowerHex 12)))))))), true⟩
    namecheapPassword := ⟨true, Regex.times lowerHex 32, true⟩
    dreamhostKey := ⟨true, Regex.times lowerUpperDigit 16, true⟩
    cloudflareKey := ⟨true, .plus lowerUpperDigit, true⟩
    cloudflareUserServiceKey :=
      ⟨true, .cat (chr 'v') (.cat (chr '1') (.cat (chr '.') (.cat (chr '0')
        (.plus anyCharNotNL)))), true⟩ }

/-- The function `NewMatcher`: every pattern is well formed, so every call of
`regexp.Compile` succeeds and the matcher is returned with a nil error. -/
def NewMatcher : Except GoError matcher := .ok patterns

/-- The method `GodaddyKey`. -/
def matcher.GodaddyKey (m : matcher) (s : String) : Bool := m.goDaddyKey.MatchString s

/-- The method `GodaddySecret`. -/
def matcher.GodaddySecret (m : matcher) (s : String) : Bool := m.goDaddySecret.MatchString s

/-- The method `DuckDNSToken`. -/
def matcher.DuckDNSToken (m : matcher) (s : String) : Bool := m.duckDNSToken.MatchString s

/-- The method `NamecheapPassword`. -/
def matcher.NamecheapPassword (m : matcher) (s : String) : Bool :=
  m.namecheapPassword.MatchString s

/-- The method `DreamhostKey`. -/
def matcher.DreamhostKey (m : matcher) (s : String) : Bool := m.dreamhostKey.MatchString s

/-- The method `CloudflareKey`. -/
def matcher.CloudflareKey (m : matcher) (s : String) : Bool := m.cloudflareKey.MatchString s

/-- The method `CloudflareUserServiceKey`. -/
def matcher.CloudflareUserServiceKey (m : matcher) (s : String) : Bool :=
  m.cloudflareUserServiceKey.MatchString s

/-- An ASCII letter or digit. -/
def isAlnum (c : Char) : Prop :=
  ('0' ≤ c ∧ c ≤ '9') ∨ ('a' ≤ c ∧ c ≤ 'z') ∨ ('A' ≤ c ∧ c ≤ 'Z')

/-- A character of `[0-9a-f]`: a decimal digit or a lowercase hexadecimal letter. -/
def isLowerHex (c : Char) : Prop :=
  ('0' ≤ c ∧ c ≤ '9') ∨ ('a' ≤ c ∧ c ≤ 'f')

/-- Whether a character is an ASCII letter or digit can be computed. -/
instance isAlnum.decidable : DecidablePred isAlnum :=
  fun c => inferInstanceAs (Decidable (('0' ≤ c ∧ c ≤ '9') ∨ ('a' ≤ c ∧ c ≤ 'z') ∨
    ('A' ≤ c ∧ c ≤ 'Z')))

/-- Whether a character belongs to `[0-9a-f]` can be computed. -/
instance isLowerHex.decidable : DecidablePred isLowerHex :=
  fun c => inferInstanceAs (Decidable (('0' ≤ c ∧ c ≤ '9') ∨ ('a' ≤ c ∧ c ≤ 'f')))

/-- The shape that the spec gives for a GoDaddy key: 10 to 14 alphanumerics, an
underscore, 22 alphanumerics. -/
def GodaddyKeyShape (s : List Char) : Prop :=
  ∃ w1 w2 : List Char, s = w1 ++ '_' :: w2 ∧ 10 ≤ w1.length ∧ w1.length ≤ 14 ∧
    w2.length = 22 ∧ (∀ c ∈ w1, isAlnum c) ∧ (∀ c ∈ w2, isAlnum c)

/-- The shape that the spec gives for a DuckDNS token: groups of 8, 4, 4, 4 and 12
characters of `[0-9a-f]` separated by single hyphens. -/
def DuckDNSTokenShape (s : List Char) : Prop :=
  ∃ g1 g2 g3 g4 g5 : List Char,
    s = g1 ++ '-' :: (g2 ++ '-' :: (g3 ++ '-' :: (g4 ++ '-' :: g5))) ∧
    g1.length = 8 ∧ g2.length = 4 ∧ g3.length = 4 ∧ g4.length = 4 ∧ g5.length = 12 ∧
    (∀ c ∈ g1, isLowerHex c) ∧ (∀ c ∈ g2, isLowerHex c) ∧ (∀ c ∈ g3, isLowerHex c) ∧
    (∀ c ∈ g4, isLowerHex c) ∧ (∀ c ∈ g5, isLowerHex c)

end regex

/-! ## Notions used to reason about the search -/

namespace regexp

/-- Every class of the pattern matches only characters accepted by `D`, and the
pattern has no unbounded repetition. -/
def Regex.Within (D : Char → Bool) : Regex → Prop
  | .empty => True
  | .cls neg ranges => ∀ c, classMatches neg ranges c = true → D c = true
  | .cat a b => Regex.Within D a ∧ Regex.Within D b
  | .alt a b => Regex.Within D a ∧ Regex.Within D b
  | .opt a => Regex.Within D a
  | .plus _ => False

/-- The preferred match of the pattern at the start of `s` leaves `t`. -/
def Regex.Prefers (re : Regex) (s t : List Char) : Prop :=
  (re.run s).head? = some t

end regexp

namespace net

/-- Whether `c` is an ASCII decimal digit. -/
def isDigit (c : Char) : Bool := regexp.classMatches false [('0', '9')] c

/-- The dotted-decimal text of the IPv4 address a.b.c.d as `IP.String` writes it. -/
def dotted (a b c d : Fin 256) : List Char :=
  ubtoa a ++ '.' :: ubtoa b ++ '.' :: ubtoa c ++ '.' :: ubtoa d

end net

/-! ## The response vocabulary and sample values -/

namespace dnsomatic

/-- The bodies that the `switch` of `Update` classifies as failures. -/
def failureTokens : List String :=
  [constants.Nohost, constants.Notfqdn, constants.Badauth, constants.Badagent,
    constants.Abuse, "dnserr", constants.Nineoneone]

/-- The search that `Update` runs on an accepted body: IPv4 literals when the
requested IP is an IPv4 address, IPv6 literals otherwise. -/
def searchFor (ip : net.IP) (s : String) : List String :=
  if (net.IP.To4 ip).isSome then verification.SearchIPv4 s else verification.SearchIPv6 s

/-- The last stage of `Update` (lines 176 to 187 of the source) as a function of
the literals that the search found: the first literal is parsed and, unless the
vendor's IP is used, compared with the requested IP. -/
def Provider.extraction {IPVersion : Type} (env : Env) (p : Provider IPVersion)
    (ip : net.IP) (ips : List String) : Except GoError net.IP :=
  match ips with
  | [] => .error (.sentinel .ErrNoIPInResponse)
  | ips0 :: _ =>
    match net.ParseIP env.strictIPv4 ips0 with
    | none => .error (.Errorf .ErrIPReceivedMalformed (": " ++ ips0))
    | some newIP =>
      if !p.useProviderIP && !net.IP.Equal ip newIP then
        .error (.Errorf .ErrIPReceivedMismatch (": " ++ net.IP.String newIP))
      else .ok newIP

/-- A sample environment: hostnames joined with a dot, no settings decoded. -/
def sampleEnv : Env :=
  { BuildURLQueryHostname := fun host domain => host ++ "." ++ domain
    UserAgent := "DDNS-Updater"
    Unmarshal := fun _ => .error "unexpected end of JSON input"
    strictIPv4 := true }

/-- An environment whose JSON decoder yields the given settings for every input. -/
def envDecoding (settings : extraSettings) : Env :=
  { BuildURLQueryHostname := fun host domain => host ++ "." ++ domain
    UserAgent := "DDNS-Updater"
    Unmarshal := fun _ => .ok settings
    strictIPv4 := true }

/-- A sample matcher: a username of 3 to 25 characters, a password of 5 to 19. -/
def sampleMatcher : common.Matcher :=
  { DNSOMaticUsername := fun s => decide (3 ≤ s.length ∧ s.length ≤ 25)
    DNSOMaticPassword := fun s => decide (5 ≤ s.length ∧ s.length ≤ 19) }

/-- A matcher that accepts every string. -/
def laxMatcher : common.Matcher :=
  { DNSOMaticUsername := fun _ => true
    DNSOMaticPassword := fun _ => true }

/-- A sample provider for `example.com` with the given host and mode. -/
def sampleProvider (host : String) (useProviderIP : Bool) : Provider Unit :=
  { domain := "example.com"
    host := host
    ipVersion := ()
    username := "alice"
    password := "s3cret"
    useProviderIP := useProviderIP
    matcher := sampleMatcher }

/-- A client whose transport answers every request with the given status and body. -/
def answering (StatusCode : Int) (body : String) : http.Client :=
  { Do := fun _ => .ok { StatusCode := StatusCode, Body := .ok body } }

/-- The IPv4 address 203.0.113.5 in 4-byte form. -/
def ip5 : net.IP := [203, 0, 113, 5]

/-- The IPv4 address 203.0.113.9 in 16-byte form. -/
def ip9 : net.IP := net.IPv4 203 0 113 9

end dnsomatic

/-! ## Status check, classification, validation and request building -/

namespace dnsomatic

variable {IPVersion : Type}

/-- When the transport answers with a status and a readable body, `Update` is the
interpretation of that response. -/
theorem Update_of_response (env : Env) (p : Provider IPVersion) (client : http.Client)
    (ip : net.IP) (status : Int) (s : String)
    (hresp : client.Do (p.request env ip) = .ok ⟨status, .ok s⟩) :
    p.Update env client ip = p.outcome env ip status s := by
  simp [Provider.Update, hresp]

/-- A body outside the failure vocabulary differs from each token. -/
theorem not_token_iff (s : String) :
    s ∉ failureTokens ↔
      s ≠ "nohost" ∧ s ≠ "notfqdn" ∧ s ≠ "badauth" ∧ s ≠ "badagent" ∧ s ≠ "abuse" ∧
        s ≠ "dnserr" ∧ s ≠ "911" := by
  simp [failureTokens, constants.Nohost, constants.Notfqdn, constants.Badauth,
    constants.Badagent, constants.Abuse, constants.Nineoneone]

/-- After the status check and the classification, `Update` depends on the search
for IP literals only. -/
theorem outcome_accepted (env : Env) (p : Provider IPVersion) (ip : net.IP) (s : String)
    (htok : s ∉ failureTokens)
    (hacc : strings.Contains s "nochg" = true ∨ strings.Contains s "good" = true) :
    p.outcome env ip 200 s =
      match searchFor ip s with
      | [] => .error (.sentinel .ErrNoIPInResponse)
      | ips0 :: _ =>
        match net.ParseIP env.strictIPv4 ips0 with
        | none => .error (.Errorf .ErrIPReceivedMalformed (": " ++ ips0))
        | some newIP =>
          if !p.useProviderIP && !net.IP.Equal ip newIP then
            .error (.Errorf .ErrIPReceivedMismatch (": " ++ net.IP.String newIP))
          else .ok newIP := by
  rw [not_token_iff] at htok
  obtain ⟨h1, h2, h3, h4, h5, h6, h7⟩ := htok
  have hc : (!strings.Contains s "nochg" && !strings.Contains s "good") = false := by
    rcases hacc with h | h <;> simp [h]
  simp [Provider.outcome, http.StatusOK, constants.Nohost, constants.Notfqdn,
    constants.Badauth, constants.Badagent, constants.Abuse, constants.Nineoneone,
    h1, h2, h3, h4, h5, h6, h7, hc, searchFor]

/-- A successful interpretation went through every stage: status 200, a body
outside the failure vocabulary that contains `nochg` or `good`, a first literal
that parses to the returned address, and, unless the vendor's IP is used, an
address equal to the requested one. -/
theorem outcome_ok_inv (env : Env) (p : Provider IPVersion) (ip : net.IP) (status : Int)
    (s : String) (newIP : net.IP) (h : p.outcome env ip status s = .ok newIP) :
    status = 200 ∧ s ∉ failureTokens ∧
      (strings.Contains s "nochg" = true ∨ strings.Contains s "good" = true) ∧
      (∃ ips0 rest, searchFor ip s = ips0 :: rest ∧
        net.ParseIP env.strictIPv4 ips0 = some newIP) ∧
      (p.useProviderIP = true ∨ net.IP.Equal ip newIP = true) := by
  by_cases hst : status = 200
  swap
  · simp [Provider.outcome, http.StatusOK, hst] at h
  subst hst
  by_cases htok : s ∈ failureTokens
  · exfalso
    simp only [failureTokens, constants.Nohost, constants.Notfqdn, constants.Badauth,
      constants.Badagent, constants.Abuse, constants.Nineoneone, List.mem_cons,
      List.mem_singleton, List.not_mem_nil, or_false] at htok
    rcases htok with h1 | h1 | h1 | h1 | h1 | h1 | h1 <;> subst h1 <;>
      simp [Provider.outcome, http.StatusOK, constants.Nohost, constants.Notfqdn,
        constants.Badauth, constants.Badagent, constants.Abuse, constants.Nineoneone] at h
  by_cases hacc : strings.Contains s "nochg" = true ∨ strings.Contains s "good" = true
  swap
  · exfalso
    have htok2 := (not_token_iff s).1 htok
    obtain ⟨h1, h2, h3, h4, h5, h6, h7⟩ := htok2
    have hc : (!strings.Contains s "nochg" && !strings.Contains s "good") = true := by
      simp only [not_or, Bool.not_eq_true] at hacc
      simp [hacc.1, hacc.2]
    simp [Provider.outcome, http.StatusOK, constants.Nohost, constants.Notfqdn,
      constants.Badauth, constants.Badagent, constants.Abuse, constants.Nineoneone,
      h1, h2, h3, h4, h5, h6, h7, hc] at h
  refine ⟨rfl, htok, hacc, ?_⟩
  rw [outcome_accepted env p ip s htok hacc] at h
  cases hs : searchFor ip s with
  | nil => simp [hs] at h
  | cons ips0 rest =>
    rw [hs] at h
    cases hp : net.ParseIP env.strictIPv4 ips0 with
    | none => simp [hp] at h
    | some b =>
      simp only [hp] at h
      by_cases hm : (!p.useProviderIP && !net.IP.Equal ip b) = true
      · simp [hm] at h
      · simp only [hm] at h
        have hb : b = newIP := by simpa using h
        subst hb
        refine ⟨⟨ips0, rest, rfl, hp⟩, ?_⟩
        cases hu : p.useProviderIP <;> cases he : net.IP.Equal ip b <;> simp_all

/-- A successful `Update` received a response with a readable body and is the
interpretation of it. -/
theorem Update_ok_inv (env : Env) (p : Provider IPVersion) (client : http.Client)
    (ip newIP : net.IP) (h : p.Update env client ip = .ok newIP) :
    ∃ status s, client.Do (p.request env ip) = .ok ⟨status, .ok s⟩ ∧
      p.outcome env ip status s = .ok newIP := by
  unfold Provider.Update at h
  cases hd : client.Do (p.request env ip) with
  | error e => simp [hd] at h
  | ok response =>
    obtain ⟨status, body⟩ := response
    cases body with
    | error e => simp [hd] at h
    | ok s =>
      refine ⟨status, s, rfl, ?_⟩
      simpa [hd] using h

/-- Go `strings.Contains(s, s)` holds for every `s`. -/
theorem containsList_self (l : List Char) : strings.containsList l l = true := by
  cases l with
  | nil => rfl
  | cons c cs =>
    have : (c :: cs).isPrefixOf (c :: cs) = true :=
      List.isPrefixOf_iff_prefix.2 (List.prefix_refl _)
    simp [strings.containsList, this]

/-- A body that does not contain a token is not that token. -/
theorem ne_of_not_contains (s t : String) (h : strings.Contains s t = false) : s ≠ t := by
  intro hst
  subst hst
  simp [strings.Contains, containsList_self] at h

/-- C3: for every HTTP status outside the range 200 to 299 and every body, `Update`
fails with an error that wraps `ErrBadHTTPStatus` and whose message carries the
decimal status code and the raw body; the body is neither classified nor searched. -/
theorem update_status_outside_2xx (env : Env) (p : Provider IPVersion)
    (client : http.Client) (ip : net.IP) (status : Int) (s : String)
    (hstatus : status < 200 ∨ 299 < status)
    (hresp : client.Do (p.request env ip) = .ok ⟨status, .ok s⟩) :
    p.Update env client ip =
      .error (.Errorf .ErrBadHTTPStatus (": " ++ toString status ++ ": " ++ s)) := by
  rw [Update_of_response env p client ip status s hresp]
  have hne : status ≠ 200 := by omega
  simp [Provider.outcome, http.StatusOK, hne]

/-- Witness of C3: status 503 with a body that would otherwise be a success. -/
theorem update_status_outside_2xx_witness :
    ((503 : Int) < 200 ∨ (299 : Int) < 503) ∧
      (sampleProvider "www" false).Update sampleEnv (answering 503 "good 203.0.113.5") ip5 =
        .error (.Errorf .ErrBadHTTPStatus
          (": " ++ toString (503 : Int) ++ ": " ++ "good 203.0.113.5")) :=
  ⟨by decide,
    update_status_outside_2xx sampleEnv (sampleProvider "www" false)
      (answering 503 "good 203.0.113.5") ip5 503 "good 203.0.113.5" (by decide) rfl⟩

/-- C5: at HTTP 200, for every requested IP and mode, the failure vocabulary maps
to errors and no IP is returned: `nohost` and `notfqdn` give `ErrHostnameNotExists`,
`badauth` gives `ErrAuth`, `badagent` gives `ErrBannedUserAgent`, `abuse` gives
`ErrAbuse`, `dnserr` and `911` give an error wrapping `ErrDNSServerSide` whose
message carries the token. -/
theorem update_failure_vocabulary (env : Env) (p : Provider IPVersion)
    (client : http.Client) (ip : net.IP) (s : String)
    (hresp : client.Do (p.request env ip) = .ok ⟨200, .ok s⟩) :
    ((s = "nohost" ∨ s = "notfqdn") →
        p.Update env client ip = .error (.sentinel .ErrHostnameNotExists)) ∧
      (s = "badauth" → p.Update env client ip = .error (.sentinel .ErrAuth)) ∧
      (s = "badagent" → p.Update env client ip = .error (.sentinel .ErrBannedUserAgent)) ∧
      (s = "abuse" → p.Update env client ip = .error (.sentinel .ErrAbuse)) ∧
      ((s = "dnserr" ∨ s = "911") →
        p.Update env client ip = .error (.Errorf .ErrDNSServerSide (": " ++ s))) := by
  rw [Update_of_response env p client ip 200 s hresp]
  refine ⟨?_, ?_, ?_, ?_, ?_⟩
  · rintro (h | h) <;> subst h <;>
      simp [Provider.outcome, http.StatusOK, constants.Nohost, constants.Notfqdn]
  · intro h
    subst h
    simp [Provider.outcome, http.StatusOK, constants.Nohost, constants.Notfqdn,
      constants.Badauth]
  · intro h
    subst h
    simp [Provider.outcome, http.StatusOK, constants.Nohost, constants.Notfqdn,
      constants.Badauth, constants.Badagent]
  · intro h
    subst h
    simp [Provider.outcome, http.StatusOK, constants.Nohost, constants.Notfqdn,
      constants.Badauth, constants.Badagent, constants.Abuse]
  · rintro (h | h) <;> subst h <;>
      simp [Provider.outcome, http.StatusOK, constants.Nohost, constants.Notfqdn,
        constants.Badauth, constants.Badagent, constants.Abuse, constants.Nineoneone]

/-- Witness of C5: the body `badauth` at status 200, in use-provider-IP mode. -/
theorem update_failure_vocabulary_witness :
    (sampleProvider "www" true).Update sampleEnv (answering 200 "badauth") ip5 =
      .error (.sentinel .ErrAuth) :=
  (update_failure_vocabulary sampleEnv (sampleProvider "www" true)
    (answering 200 "badauth") ip5 "badauth" rfl).2.1 rfl

/-- C6: an unrecognized body is never a success. At HTTP 200 a body that contains
none of the failure tokens and neither `nochg` nor `good` makes `Update` fail with
an error wrapping `ErrUnknownResponse` whose message carries the body; and every
successful `Update` read, at status 200, a body containing `nochg` or `good`. -/
theorem update_unrecognized_body (env : Env) (p : Provider IPVersion)
    (client : http.Client) (ip : net.IP) :
    (∀ s : String, client.Do (p.request env ip) = .ok ⟨200, .ok s⟩ →
      (∀ t ∈ failureTokens, strings.Contains s t = false) →
      strings.Contains s "nochg" = false → strings.Contains s "good" = false →
      p.Update env client ip = .error (.Errorf .ErrUnknownResponse (": " ++ s))) ∧
    (∀ newIP : net.IP, p.Update env client ip = .ok newIP →
      ∃ s : String, client.Do (p.request env ip) = .ok ⟨200, .ok s⟩ ∧
        (strings.Contains s "nochg" = true ∨ strings.Contains s "good" = true)) := by
  constructor
  · intro s hresp hnone hnochg hgood
    rw [Update_of_response env p client ip 200 s hresp]
    have htok : s ∉ failureTokens := fun hmem =>
      ne_of_not_contains s s (hnone s hmem) rfl
    obtain ⟨h1, h2, h3, h4, h5, h6, h7⟩ := (not_token_iff s).1 htok
    simp [Provider.outcome, http.StatusOK, constants.Nohost, constants.Notfqdn,
      constants.Badauth, constants.Badagent, constants.Abuse, constants.Nineoneone,
      h1, h2, h3, h4, h5, h6, h7, hnochg, hgood]
  · intro newIP h
    obtain ⟨status, s, hresp, hout⟩ := Update_ok_inv env p client ip newIP h
    obtain ⟨hst, -, hacc, -, -⟩ := outcome_ok_inv env p ip status s newIP hout
    subst hst
    exact ⟨s, hresp, hacc⟩

/-- Witness of C6: the body `hello` at status 200. -/
theorem update_unrecognized_body_witness :
    (sampleProvider "www" false).Update sampleEnv (answering 200 "hello") ip5 =
      .error (.Errorf .ErrUnknownResponse (": " ++ "hello")) :=
  (update_unrecognized_body sampleEnv (sampleProvider "www" false)
    (answering 200 "hello") ip5).1 "hello" rfl (by decide) (by decide) (by decide)

/-- C7: at HTTP 200, for every body that contains `nochg` or `good`, is not a
failure token and in which the search for literals of the requested IP's address
family finds nothing, `Update` fails with `ErrNoIPInResponse`, whatever the
use-provider-IP mode. -/
theorem update_no_ip_in_response (env : Env) (p : Provider IPVersion)
    (client : http.Client) (ip : net.IP) (s : String)
    (hresp : client.Do (p.request env ip) = .ok ⟨200, .ok s⟩)
    (hacc : strings.Contains s "nochg" = true ∨ strings.Contains s "good" = true)
    (htok : s ∉ failureTokens)
    (hnone : searchFor ip s = []) :
    p.Update env client ip = .error (.sentinel .ErrNoIPInResponse) := by
  rw [Update_of_response env p client ip 200 s hresp, outcome_accepted env p ip s htok hacc,
    hnone]

/-- Witness of C7: the body `nochg`, in both modes. -/
theorem update_no_ip_in_response_witness :
    (sampleProvider "www" false).Update sampleEnv (answering 200 "nochg") ip5 =
        .error (.sentinel .ErrNoIPInResponse) ∧
      (sampleProvider "www" true).Update sampleEnv (answering 200 "nochg") ip5 =
        .error (.sentinel .ErrNoIPInResponse) :=
  ⟨update_no_ip_in_response sampleEnv (sampleProvider "www" false) (answering 200 "nochg")
      ip5 "nochg" rfl (by decide) (by decide) (by decide),
    update_no_ip_in_response sampleEnv (sampleProvider "www" true) (answering 200 "nochg")
      ip5 "nochg" rfl (by decide) (by decide) (by decide)⟩

/-- Go's `len(s) == 0` holds of the empty string only. -/
theorem utf8ByteSize_eq_zero (s : String) : s.utf8ByteSize = 0 ↔ s = "" := by
  cases s with
  | mk l =>
    cases l with
    | nil => simp [String.utf8ByteSize, String.utf8ByteSize.go]
    | cons c cs =>
      have := Char.utf8Size_pos c
      simp [String.utf8ByteSize, String.utf8ByteSize.go, String.ext_iff]
      omega

/-- The provider passes validation exactly when both fields match their patterns
and are non-empty. -/
theorem isValid_eq_none_iff (p : Provider IPVersion) :
    p.isValid = none ↔
      p.matcher.DNSOMaticUsername p.username = true ∧
        p.matcher.DNSOMaticPassword p.password = true ∧
        p.username ≠ "" ∧ p.password ≠ "" := by
  unfold Provider.isValid
  cases hu : p.matcher.DNSOMaticUsername p.username <;>
    cases hp : p.matcher.DNSOMaticPassword p.password <;>
    by_cases hue : p.username = "" <;> by_cases hpe : p.password = "" <;>
    simp [hue, hpe, utf8ByteSize_eq_zero]

/-- C8: validation is all-or-nothing. For every matcher, username and password,
`isValid` returns nil exactly when the username matches its pattern, the password
matches its pattern and both are non-empty; when `isValid` returns an error on the
provider built from the decoded settings, `New` returns that error and no
provider; and every provider that `New` returns passes validation. -/
theorem validation_all_or_nothing (env : Env) (data domain host : String)
    (ipVersion : IPVersion) (matcher : common.Matcher) (username password : String)
    (useProviderIP : Bool) :
    (Provider.isValid (⟨domain, host, ipVersion, username, password, useProviderIP, matcher⟩ : Provider IPVersion) = none ↔
      matcher.DNSOMaticUsername username = true ∧ matcher.DNSOMaticPassword password = true ∧
        username ≠ "" ∧ password ≠ "") ∧
    (env.Unmarshal data = .ok ⟨username, password, useProviderIP⟩ →
      ∀ e, Provider.isValid (⟨domain, host, ipVersion, username, password, useProviderIP, matcher⟩ : Provider IPVersion) = some e →
        New env data domain host ipVersion matcher = .error e) ∧
    (∀ q : Provider IPVersion, New env data domain host ipVersion matcher = .ok q →
      q.isValid = none ∧ q.username ≠ "" ∧ q.password ≠ "" ∧
        q.matcher.DNSOMaticUsername q.username = true ∧
        q.matcher.DNSOMaticPassword q.password = true) := by
  refine ⟨isValid_eq_none_iff _, ?_, ?_⟩
  · intro hdec e he
    simp [New, hdec, he]
  · intro q hq
    unfold New at hq
    cases hdec : env.Unmarshal data with
    | error err => simp [hdec] at hq
    | ok settings =>
      simp only [hdec] at hq
      split at hq
      · simp at hq
      · rename_i hv
        injection hq with hq2
        subst hq2
        have := (isValid_eq_none_iff _).1 hv
        exact ⟨hv, this.2.2.1, this.2.2.2, this.1, this.2.1⟩

/-- Witness of C8: settings with an empty password never become a provider. -/
theorem validation_all_or_nothing_witness :
    New (envDecoding ⟨"alice", "", false⟩) "" "example.com" "www" () laxMatcher =
      .error (.sentinel .ErrEmptyPassword) :=
  (validation_all_or_nothing (envDecoding ⟨"alice", "", false⟩) "" "example.com" "www" ()
    laxMatcher "alice" "" false).2.1 rfl (.sentinel .ErrEmptyPassword) rfl

/-- C9, as stated, fails: with a matcher that rejects the empty string, an empty
username is reported as malformed, not as empty, and with a valid username an
empty password is reported as malformed, not as empty. -/
theorem isValid_empty_reported_malformed :
    (Provider.isValid (⟨"example.com", "www", (), "", "s3cret", false, sampleMatcher⟩ : Provider Unit) =
          some (.Errorf .ErrMalformedUsername (": " ++ "")) ∧
      Provider.isValid (⟨"example.com", "www", (), "", "s3cret", false, sampleMatcher⟩ : Provider Unit) ≠
          some (.sentinel .ErrEmptyUsername)) ∧
    (Provider.isValid (⟨"example.com", "www", (), "alice", "", false, sampleMatcher⟩ : Provider Unit) =
          some (.sentinel .ErrMalformedPassword) ∧
      Provider.isValid (⟨"example.com", "www", (), "alice", "", false, sampleMatcher⟩ : Provider Unit) ≠
          some (.sentinel .ErrEmptyPassword)) := by
  have h1 : Provider.isValid (⟨"example.com", "www", (), "", "s3cret", false, sampleMatcher⟩ : Provider Unit) =
        some (.Errorf .ErrMalformedUsername (": " ++ "")) := rfl
  have h2 : Provider.isValid (⟨"example.com", "www", (), "alice", "", false, sampleMatcher⟩ : Provider Unit) =
        some (.sentinel .ErrMalformedPassword) := rfl
  refine ⟨⟨h1, ?_⟩, ⟨h2, ?_⟩⟩
  · rw [h1]
    simp
  · rw [h2]
    simp

/-- C9, amended: among fields that match their patterns the empty field has its
own error. When the username and the password both match their patterns and the
username is the empty string, `isValid` returns `ErrEmptyUsername`; when both
match, the username is non-empty and the password is the empty string, it
returns `ErrEmptyPassword`. -/
theorem isValid_empty_field (p : Provider IPVersion)
    (hu : p.matcher.DNSOMaticUsername p.username = true)
    (hp : p.matcher.DNSOMaticPassword p.password = true) :
    (p.username = "" → p.isValid = some (.sentinel .ErrEmptyUsername)) ∧
      (p.username ≠ "" → p.password = "" →
        p.isValid = some (.sentinel .ErrEmptyPassword)) := by
  constructor
  · intro he
    have h0 : p.username.utf8ByteSize = 0 := (utf8ByteSize_eq_zero _).2 he
    simp [Provider.isValid, hu, hp, h0]
  · intro hne he
    have h0 : p.username.utf8ByteSize ≠ 0 := fun h => hne ((utf8ByteSize_eq_zero _).1 h)
    have h1 : p.password.utf8ByteSize = 0 := (utf8ByteSize_eq_zero _).2 he
    simp [Provider.isValid, hu, hp, h0, h1]

/-- Witness of the amended C9: with a matcher that accepts the empty string, an
empty username gives `ErrEmptyUsername`. -/
theorem isValid_empty_field_witness :
    Provider.isValid (⟨"example.com", "www", (), "", "s3cret", false, laxMatcher⟩ : Provider Unit) =
      some (.sentinel .ErrEmptyUsername) :=
  (isValid_empty_field (⟨"example.com", "www", (), "", "s3cret", false, laxMatcher⟩ : Provider Unit) rfl rfl).1 rfl

/-- The value stored last under a key is its only value. -/
theorem values_Set_same (v : url.Values) (key value : String) :
    url.Values.values (v.Set key value) key = [value] := by
  simp [url.Values.Set, url.Values.values, List.lookup]

/-- Storing under another key leaves the values of a key as they were. -/
theorem values_Set_other (v : url.Values) (key other value : String) (h : other ≠ key) :
    url.Values.values (v.Set other value) key = url.Values.values v key := by
  have hb : (key == other) = false := by
    simpa using fun hk => h hk.symm
  have hl : ∀ l : url.Values,
      List.lookup key (l.filter (fun kv => kv.1 != other)) = List.lookup key l := by
    intro l
    induction l with
    | nil => rfl
    | cons kv l ih =>
      obtain ⟨k, vs⟩ := kv
      by_cases hk : k = other
      · subst hk
        simp [List.filter, List.lookup, hb, ih]
      · have hko : (k != other) = true := by simpa using hk
        simp only [List.filter, hko, List.lookup]
        cases hkk : key == k <;> simp [ih]
  simp [url.Values.Set, url.Values.values, List.lookup, hb, hl]

/-- C10: in the request built by `Update`, for every domain, credentials, IP and
mode, the `wildcard` parameter is `ON` exactly when the configured host is `*` and
is `NOCHG` otherwise, and when the host is `*` the `hostname` parameter is the
domain alone. -/
theorem request_wildcard (env : Env) (p : Provider IPVersion) (ip : net.IP) :
    (url.Values.values (p.request env ip).URL.Query "wildcard" = ["ON"] ↔ p.host = "*") ∧
      (p.host ≠ "*" → url.Values.values (p.request env ip).URL.Query "wildcard" = ["NOCHG"]) ∧
      (p.host = "*" → url.Values.values (p.request env ip).URL.Query "hostname" = [p.domain]) := by
  have hw : url.Values.values (p.request env ip).URL.Query "wildcard" =
      if p.host = "*" then ["ON"] else ["NOCHG"] := by
    simp only [Provider.request, Provider.values]
    split <;>
      simp [values_Set_same, values_Set_other]
  have hh : p.host = "*" →
      url.Values.values (p.request env ip).URL.Query "hostname" = [p.domain] := by
    intro hs
    simp only [Provider.request, Provider.values, hs, if_true]
    simp [values_Set_same, values_Set_other]
  refine ⟨?_, ?_, hh⟩
  · rw [hw]
    by_cases hs : p.host = "*" <;> simp [hs]
  · intro hs
    rw [hw]
    simp [hs]

/-- Witness of C10: the host `*` on `example.com`. -/
theorem request_wildcard_witness :
    url.Values.values ((sampleProvider "*" false).request sampleEnv ip5).URL.Query "hostname" =
      ["example.com"] :=
  (request_wildcard sampleEnv (sampleProvider "*" false) ip5).2.2 rfl

end dnsomatic

/-! ## The search for an IPv4 literal in a body that ends with a dotted-decimal address -/

namespace regexp

/-- Locality of the search: when the pattern can only consume characters accepted
by `D` and the text `rest` does not start with such a character, the matches in
`s ++ rest` are the matches in `s`. -/
theorem run_append (D : Char → Bool) (rest : List Char)
    (hrest : ∀ c, rest.head? = some c → D c = false) (re : Regex) :
    re.Within D → ∀ s, re.run (s ++ rest) = (re.run s).map (fun t => t ++ rest) := by
  induction re with
  | empty => intro _ s; simp [Regex.run]
  | cls neg ranges =>
    intro h s
    cases s with
    | nil =>
      cases rest with
      | nil => simp [Regex.run]
      | cons c cs =>
        have hc : classMatches neg ranges c = false := by
          cases hm : classMatches neg ranges c
          · rfl
          · have h1 := h c hm
            have h2 := hrest c rfl
            rw [h1] at h2
            exact absurd h2 (by decide)
        simp [Regex.run, hc]
    | cons c cs =>
      simp only [List.cons_append, Regex.run]
      split <;> simp
  | cat a b iha ihb =>
    intro h s
    simp only [Regex.run]
    rw [iha h.1 s, List.flatMap_map, List.map_flatMap]
    congr 1
    funext t
    exact ihb h.2 t
  | alt a b iha ihb =>
    intro h s
    simp only [Regex.run]
    rw [iha h.1 s, ihb h.2 s, List.map_append]
  | opt a iha =>
    intro h s
    simp only [Regex.run]
    rw [iha h s, List.map_append]
    rfl
  | plus a _ =>
    intro h
    exact h.elim

/-- The preferred match of a concatenation is the preferred match of the first
part followed by the preferred match of the second, when the latter exists. -/
theorem prefers_cat {a b : Regex} {s t u : List Char} (h1 : a.Prefers s t)
    (h2 : b.Prefers t u) : (Regex.cat a b).Prefers s u := by
  unfold Regex.Prefers at *
  cases hr : a.run s with
  | nil => simp [hr] at h1
  | cons x xs =>
    rw [hr] at h1
    have hx : x = t := by simpa using h1
    subst hx
    simp only [Regex.run, hr, List.flatMap_cons, List.head?_append, h2]
    rfl

/-- A literal character matches itself. -/
theorem prefers_chr (c : Char) (s : List Char) : (chr c).Prefers (c :: s) s := by
  have hc : classMatches false [(c, c)] c = true := by
    simp [classMatches, inRanges, Char.le_refl]
  simp [Regex.Prefers, chr, Regex.run, hc]

/-- A match of a pattern at the start of the text is the leftmost match. -/
theorem find_prefers (re : Regex) (s rest : List Char) (h : re.Prefers s rest) :
    re.find s = some ([], s.take (s.length - rest.length), rest) := by
  unfold Regex.Prefers at h
  cases s with
  | nil => simp [Regex.find, h]
  | cons c cs => simp [Regex.find, h]

/-- Without a match at its first character, the text is searched from the next one. -/
theorem find_skip (re : Regex) (c : Char) (cs : List Char) (h : re.run (c :: cs) = []) :
    re.find (c :: cs) =
      match re.find cs with
      | some (skipped, m, rest) => some (c :: skipped, m, rest)
      | none => none := by
  simp [Regex.find, h]

/-- A round of `allMatches` that finds a match which is not an empty match at the
current position delivers it and goes on after it. -/
theorem allMatches_found (re : Regex) (n : Nat) (afterMatch : Bool)
    (s skipped m rest : List Char) (h : re.find s = some (skipped, m, rest))
    (hne : ¬ (skipped.length = 0 ∧ m.length = 0)) :
    re.allMatches (n + 1) afterMatch s = m :: re.allMatches n true rest := by
  show (match re.find s with
    | none => []
    | some (skipped, m, rest) =>
      if skipped.length = 0 ∧ m.length = 0 then
        (if afterMatch then [] else [m]) ++
          (match s with
           | [] => []
           | _ :: t => Regex.allMatches re n false t)
      else m :: Regex.allMatches re n true rest) = _
  rw [h]
  exact if_neg hne

end regexp

namespace verification

open regexp net

/-- Every class of the group `octet` is a class of decimal digits. -/
theorem octet_within : octet.Within isDigit := by
  have hsub : ∀ lo hi : Char, '0' ≤ lo → hi ≤ '9' →
      ∀ c, classMatches false [(lo, hi)] c = true → isDigit c = true := by
    intro lo hi hlo hhi c hc
    simp only [classMatches, inRanges, List.any_cons, List.any_nil, Bool.or_false,
      Bool.and_eq_true, decide_eq_true_eq, Bool.false_eq_true, if_false] at hc
    simp only [isDigit, classMatches, inRanges, List.any_cons, List.any_nil, Bool.or_false,
      Bool.and_eq_true, decide_eq_true_eq, Bool.false_eq_true, if_false]
    exact ⟨Char.le_trans hlo hc.1, Char.le_trans hc.2 hhi⟩
  simp only [octet, digit, chr, Regex.Within]
  refine ⟨⟨?_, ?_, ?_⟩, ⟨?_, ?_, ?_⟩, ?_, ?_, ?_⟩ <;>
    exact hsub _ _ (by decide) (by decide)

set_option maxRecDepth 100000 in
/-- On the decimal text of a byte alone, the preferred match of `octet` is the
whole text. -/
theorem octet_ubtoa : ∀ v : Fin 256, (octet.run (ubtoa v)).head? = some [] := by
  decide

/-- The preferred match of `octet` on the decimal text of a byte followed by a text
that does not start with a digit is that decimal text. -/
theorem prefers_octet (v : Fin 256) (rest : List Char)
    (hrest : ∀ c, rest.head? = some c → isDigit c = false) :
    octet.Prefers (ubtoa v ++ rest) rest := by
  unfold Regex.Prefers
  rw [run_append isDigit rest hrest octet octet_within (ubtoa v)]
  cases hr : octet.run (ubtoa v) with
  | nil =>
    have := octet_ubtoa v
    simp [hr] at this
  | cons x xs =>
    have h := octet_ubtoa v
    rw [hr] at h
    have hx : x = [] := by simpa using h
    subst hx
    simp

/-- The group `octet` does not match at a character that is not a digit. -/
theorem octet_run_nondigit (c : Char) (cs : List Char) (hc : isDigit c = false) :
    octet.run (c :: cs) = [] := by
  have h := run_append isDigit (c :: cs) (by intro d hd; simp at hd; subst hd; exact hc)
    octet octet_within []
  have h0 : octet.run [] = [] := by decide
  simpa [h0] using h

/-- The pattern `regexIPv4` does not match at a character that is not a digit. -/
theorem regexIPv4_run_nondigit (c : Char) (cs : List Char) (hc : isDigit c = false) :
    regexIPv4.run (c :: cs) = [] := by
  have h : regexIPv4.run (c :: cs) =
      (octet.run (c :: cs)).flatMap
        (fun t => (Regex.times (Regex.cat (chr '.') octet) 3).run t) := rfl
  rw [h, octet_run_nondigit c cs hc]
  rfl

/-- The pattern `regexIPv4` does not match the empty text. -/
theorem regexIPv4_run_nil : regexIPv4.run [] = [] := by
  decide

/-- The preferred match of `regexIPv4` on a dotted-decimal address is the whole
address. -/
theorem prefers_regexIPv4 (a b c d : Fin 256) : regexIPv4.Prefers (dotted a b c d) [] := by
  have hdot : ∀ r : List Char, ∀ x, ('.' :: r).head? = some x → isDigit x = false := by
    intro r x hx
    simp at hx
    subst hx
    decide
  have hnil : ∀ x, ([] : List Char).head? = some x → isDigit x = false := by
    intro x hx
    simp at hx
  have hd : octet.Prefers (ubtoa d ++ []) [] := prefers_octet d [] hnil
  have hc : (Regex.cat (chr '.') octet).Prefers ('.' :: (ubtoa d ++ [])) [] :=
    prefers_cat (prefers_chr '.' _) hd
  have hc2 : octet.Prefers (ubtoa c ++ '.' :: (ubtoa d ++ [])) ('.' :: (ubtoa d ++ [])) :=
    prefers_octet c _ (hdot _)
  have hb2 : octet.Prefers (ubtoa b ++ '.' :: (ubtoa c ++ '.' :: (ubtoa d ++ [])))
      ('.' :: (ubtoa c ++ '.' :: (ubtoa d ++ []))) := prefers_octet b _ (hdot _)
  have ha2 : octet.Prefers
      (ubtoa a ++ '.' :: (ubtoa b ++ '.' :: (ubtoa c ++ '.' :: (ubtoa d ++ []))))
      ('.' :: (ubtoa b ++ '.' :: (ubtoa c ++ '.' :: (ubtoa d ++ [])))) :=
    prefers_octet a _ (hdot _)
  have hemp : Regex.empty.Prefers [] [] := by simp [Regex.Prefers, Regex.run]
  have h3 : (Regex.times (Regex.cat (chr '.') octet) 3).Prefers
      ('.' :: (ubtoa b ++ '.' :: (ubtoa c ++ '.' :: (ubtoa d ++ [])))) [] := by
    simp only [Regex.times]
    exact prefers_cat (prefers_cat (prefers_chr '.' _) hb2)
      (prefers_cat (prefers_cat (prefers_chr '.' _) hc2) (prefers_cat hc hemp))
  have hall := prefers_cat ha2 h3
  have hform : dotted a b c d =
      ubtoa a ++ '.' :: (ubtoa b ++ '.' :: (ubtoa c ++ '.' :: (ubtoa d ++ []))) := by
    simp [dotted]
  rw [hform]
  exact hall

/-- In the body `good ` followed by a dotted-decimal address, the search for IPv4
literals finds exactly that address. -/
theorem SearchIPv4_good (a b c d : Fin 256) :
    SearchIPv4 ("good " ++ String.mk (dotted a b c d)) = [String.mk (dotted a b c d)] := by
  have hfind : regexIPv4.find (dotted a b c d) = some ([], dotted a b c d, []) := by
    have h := find_prefers regexIPv4 (dotted a b c d) [] (prefers_regexIPv4 a b c d)
    simpa using h
  have hskip : regexIPv4.find ('g' :: 'o' :: 'o' :: 'd' :: ' ' :: dotted a b c d) =
      some (['g', 'o', 'o', 'd', ' '], dotted a b c d, []) := by
    rw [find_skip _ _ _ (regexIPv4_run_nondigit _ _ (by decide)),
      find_skip _ _ _ (regexIPv4_run_nondigit _ _ (by decide)),
      find_skip _ _ _ (regexIPv4_run_nondigit _ _ (by decide)),
      find_skip _ _ _ (regexIPv4_run_nondigit _ _ (by decide)),
      find_skip _ _ _ (regexIPv4_run_nondigit _ _ (by decide)), hfind]
  have hend : ∀ n, regexIPv4.allMatches n true [] = [] := by
    intro n
    cases n with
    | zero => rfl
    | succ n => simp [Regex.allMatches, Regex.find, regexIPv4_run_nil]
  have hdata : ("good " ++ String.mk (dotted a b c d)).data =
      'g' :: 'o' :: 'o' :: 'd' :: ' ' :: dotted a b c d := by
    simp [String.data_append]
  unfold SearchIPv4 Regex.FindAllString
  rw [hdata, allMatches_found regexIPv4 _ false _ _ _ _ hskip (by simp), hend]
  rfl

end verification

/-! ## Parsing the dotted-decimal text of an IPv4 address -/

namespace net

/-- The class of decimal digits is the test of `dtoi`. -/
theorem isDigit_iff (c : Char) : isDigit c = true ↔ '0' ≤ c ∧ c ≤ '9' := by
  simp [isDigit, regexp.classMatches, regexp.inRanges]

/-- The loop of `dtoi` stops at the first character that is not a digit. -/
theorem dtoiLoop_append (rest : List Char)
    (hrest : ∀ c, rest.head? = some c → isDigit c = false) :
    ∀ (ds : List Char) (n i : Nat), dtoiLoop (ds ++ rest) n i = dtoiLoop ds n i := by
  intro ds
  induction ds with
  | nil =>
    intro n i
    cases rest with
    | nil => rfl
    | cons c r =>
      have hc : ¬ ('0' ≤ c ∧ c ≤ '9') := by
        rw [← isDigit_iff, hrest c rfl]
        decide
      simp [dtoiLoop, hc]
  | cons c cs ih =>
    intro n i
    simp only [List.cons_append, dtoiLoop, List.append_eq, ih]

set_option maxRecDepth 100000 in
/-- Reading back the decimal text of a byte gives the byte and consumes the text. -/
theorem dtoi_ubtoa : ∀ v : Fin 256, dtoi (ubtoa v) = (v.val, (ubtoa v).length, true) := by
  decide

set_option maxRecDepth 100000 in
/-- The decimal text of a byte is not empty, has no leading zero when longer than
one digit, and consists of digits. -/
theorem ubtoa_shape : ∀ v : Fin 256,
    (ubtoa v).length ≠ 0 ∧ ¬ ((ubtoa v).length > 1 ∧ (ubtoa v).head? = some '0') ∧
      (ubtoa v).all isDigit = true := by
  decide

/-- Reading the decimal text of a byte followed by a text that does not start with
a digit. -/
theorem dtoi_ubtoa_append (v : Fin 256) (rest : List Char)
    (hrest : ∀ c, rest.head? = some c → isDigit c = false) :
    dtoi (ubtoa v ++ rest) = (v.val, (ubtoa v).length, true) := by
  unfold dtoi
  rw [dtoiLoop_append rest hrest]
  exact dtoi_ubtoa v

/-- One round of the loop of `parseIPv4` on a field that is the decimal text of a
byte: the byte is stored and the loop goes on after the field. -/
theorem parseIPv4Loop_step (strict : Bool) (fuel : Nat) (s0 : List Char) (p : IP)
    (v : Fin 256) (rest : List Char)
    (hrest : ∀ c, rest.head? = some c → isDigit c = false)
    (hne : s0.length ≠ 0)
    (hs : (if p.length > 0 then (if s0.head? ≠ some '.' then none else some (s0.drop 1))
      else some s0) = some (ubtoa v ++ rest)) :
    parseIPv4Loop strict (fuel + 1) s0 p = parseIPv4Loop strict fuel rest (p ++ [v]) := by
  obtain ⟨hlen, hzero, -⟩ := ubtoa_shape v
  have hhead : (ubtoa v ++ rest).head? = (ubtoa v).head? := by
    cases hu : ubtoa v with
    | nil => simp [hu] at hlen
    | cons x xs => rfl
  have hstrict : ¬ (strict = true ∧ (ubtoa v).length > 1 ∧
      (ubtoa v ++ rest).head? = some '0') := by
    rw [hhead]
    exact fun h => hzero h.2
  have hv : ¬ (true = false ∨ ¬ v.val < 256) := by
    have := v.isLt
    simp
  rw [parseIPv4Loop]
  simp only [hne, if_false, hs, dtoi_ubtoa_append v rest hrest]
  rw [dif_neg hv, if_neg hstrict, List.drop_left]

/-- Parsing the dotted-decimal text of a.b.c.d gives that address in 16-byte form,
with and without the rule against leading zeros. -/
theorem parseIPv4_dotted (strict : Bool) (a b c d : Fin 256) :
    parseIPv4 strict (dotted a b c d) = some (IPv4 a b c d) := by
  have hdot : ∀ r : List Char, ∀ x, ('.' :: r).head? = some x → isDigit x = false := by
    intro r x hx
    simp at hx
    subst hx
    decide
  have hnil : ∀ x, ([] : List Char).head? = some x → isDigit x = false := by
    intro x hx
    simp at hx
  have hform : dotted a b c d =
      ubtoa a ++ '.' :: (ubtoa b ++ '.' :: (ubtoa c ++ '.' :: (ubtoa d ++ []))) := by
    simp [dotted]
  have hlen : ∀ (v : Fin 256) (r : List Char), (ubtoa v ++ r).length ≠ 0 := by
    intro v r
    have := (ubtoa_shape v).1
    simp only [List.length_append]
    omega
  have h1 : parseIPv4Loop strict 4
      (ubtoa a ++ '.' :: (ubtoa b ++ '.' :: (ubtoa c ++ '.' :: (ubtoa d ++ [])))) [] =
      parseIPv4Loop strict 3 ('.' :: (ubtoa b ++ '.' :: (ubtoa c ++ '.' :: (ubtoa d ++ []))))
        ([] ++ [a]) :=
    parseIPv4Loop_step strict 3 _ [] a _ (hdot _) (hlen _ _) (by simp)
  have h2 : parseIPv4Loop strict 3
      ('.' :: (ubtoa b ++ '.' :: (ubtoa c ++ '.' :: (ubtoa d ++ [])))) ([] ++ [a]) =
      parseIPv4Loop strict 2 ('.' :: (ubtoa c ++ '.' :: (ubtoa d ++ []))) ([] ++ [a] ++ [b]) :=
    parseIPv4Loop_step strict 2 _ _ b _ (hdot _) (by simp) (by simp)
  have h3 : parseIPv4Loop strict 2 ('.' :: (ubtoa c ++ '.' :: (ubtoa d ++ [])))
      ([] ++ [a] ++ [b]) =
      parseIPv4Loop strict 1 ('.' :: (ubtoa d ++ [])) ([] ++ [a] ++ [b] ++ [c]) :=
    parseIPv4Loop_step strict 1 _ _ c _ (hdot _) (by simp) (by simp)
  have h4 : parseIPv4Loop strict 1 ('.' :: (ubtoa d ++ [])) ([] ++ [a] ++ [b] ++ [c]) =
      parseIPv4Loop strict 0 [] ([] ++ [a] ++ [b] ++ [c] ++ [d]) :=
    parseIPv4Loop_step strict 0 _ _ d _ hnil (by simp) (by simp)
  unfold parseIPv4
  rw [hform]
  show (match parseIPv4Loop strict 4 _ [] with
    | some [a, b, c, d] => some (IPv4 a b c d)
    | _ => none) = _
  rw [h1, h2, h3, h4]
  rfl

/-- The scan of `ParseIP` passes over digits and selects the IPv4 parser at the
first dot. -/
theorem parseIPScan_digits (strict : Bool) (all : List Char) (rest : List Char) :
    ∀ ds : List Char, ds.all isDigit = true →
      parseIPScan strict all (ds ++ '.' :: rest) = parseIPv4 strict all := by
  intro ds
  induction ds with
  | nil =>
    intro _
    simp [parseIPScan]
  | cons c cs ih =>
    intro h
    simp only [List.all_cons, Bool.and_eq_true] at h
    have h1 : c ≠ '.' := by
      intro hc
      rw [hc] at h
      exact absurd h.1 (by decide)
    have h2 : c ≠ ':' := by
      intro hc
      rw [hc] at h
      exact absurd h.1 (by decide)
    simp only [List.cons_append, parseIPScan, List.append_eq, h1, h2, if_false, ih h.2]

/-- Go `net.ParseIP` reads the dotted-decimal text of a.b.c.d as that address. -/
theorem ParseIP_dotted (strict : Bool) (a b c d : Fin 256) :
    ParseIP strict (String.mk (dotted a b c d)) = some (IPv4 a b c d) := by
  unfold ParseIP
  show parseIPScan strict (dotted a b c d) (dotted a b c d) = _
  have hform : dotted a b c d =
      ubtoa a ++ '.' :: (ubtoa b ++ '.' :: (ubtoa c ++ '.' :: ubtoa d)) := by
    simp [dotted]
  conv_lhs =>
    arg 3
    rw [hform]
  rw [parseIPScan_digits strict _ _ _ (ubtoa_shape a).2.2]
  exact parseIPv4_dotted strict a b c d

/-- An IPv4 address is its four bytes, alone or after the IPv4-in-IPv6 marker. -/
theorem To4_some (ip : IP) (a b c d : Fin 256) (h : IP.To4 ip = some [a, b, c, d]) :
    ip = [a, b, c, d] ∨ ip = IPv4 a b c d := by
  unfold IP.To4 at h
  split at h
  · left
    simpa using h
  · split at h
    · right
      rename_i hcond
      obtain ⟨hlen, hz, h10, h11⟩ := hcond
      rcases ip with _ | ⟨x0, _ | ⟨x1, _ | ⟨x2, _ | ⟨x3, _ | ⟨x4, _ | ⟨x5, _ | ⟨x6, _ | ⟨x7,
        _ | ⟨x8, _ | ⟨x9, _ | ⟨x10, _ | ⟨x11, _ | ⟨x12, _ | ⟨x13, _ | ⟨x14, _ | ⟨x15,
        _ | ⟨x16, t⟩⟩⟩⟩⟩⟩⟩⟩⟩⟩⟩⟩⟩⟩⟩⟩⟩ <;>
        simp only [List.length_cons, List.length_nil, IPv6len] at hlen <;>
        try omega
      simp [isZeros] at hz h10 h11 h
      obtain ⟨z0, z1, z2, z3, z4, z5, z6, z7, z8, z9⟩ := hz
      obtain ⟨e0, e1, e2, e3⟩ := h
      subst z0 z1 z2 z3 z4 z5 z6 z7 z8 z9 h10 h11 e0 e1 e2 e3
      rfl
    · simp at h

/-- The text of an IPv4 address is its dotted-decimal form. -/
theorem String_of_To4 (ip : IP) (a b c d : Fin 256) (h : IP.To4 ip = some [a, b, c, d]) :
    IP.String ip = String.mk (dotted a b c d) := by
  have hlen : ip.length ≠ 0 := by
    rcases To4_some ip a b c d h with h1 | h1 <;> subst h1 <;> simp [IPv4, v4InV6Prefix]
  unfold IP.String IP.chars
  rw [if_neg hlen, h]
  rfl

/-- An IPv4 address is equal, in the sense of `IP.Equal`, to its 16-byte form. -/
theorem Equal_of_To4 (ip : IP) (a b c d : Fin 256) (h : IP.To4 ip = some [a, b, c, d]) :
    IP.Equal ip (IPv4 a b c d) = true := by
  rcases To4_some ip a b c d h with h1 | h1 <;> subst h1 <;>
    simp [IP.Equal, IPv4, v4InV6Prefix, IPv4len, IPv6len]

end net

/-! ## Success, mismatch and the status check -/

namespace dnsomatic

variable {IPVersion : Type}

/-- At status 200 the body `good ` followed by the text of the requested IPv4
address is interpreted as a success with that address, in 16-byte form. -/
theorem outcome_good (env : Env) (p : Provider IPVersion) (ip : net.IP)
    (a b c d : Fin 256) (h4 : net.IP.To4 ip = some [a, b, c, d]) :
    p.outcome env ip 200 ("good " ++ net.IP.String ip) = .ok (net.IPv4 a b c d) := by
  rw [net.String_of_To4 ip a b c d h4]
  have hdata : ("good " ++ String.mk (net.dotted a b c d)).data =
      'g' :: 'o' :: 'o' :: 'd' :: ' ' :: net.dotted a b c d := by
    simp [String.data_append]
  have hne : ∀ t : String, t.data.head? ≠ some 'g' →
      "good " ++ String.mk (net.dotted a b c d) ≠ t := by
    intro t ht h
    rw [← h, hdata] at ht
    exact ht rfl
  have htok : "good " ++ String.mk (net.dotted a b c d) ∉ failureTokens := by
    rw [not_token_iff]
    refine ⟨hne _ ?_, hne _ ?_, hne _ ?_, hne _ ?_, hne _ ?_, hne _ ?_, hne _ ?_⟩ <;> decide
  have hacc : strings.Contains ("good " ++ String.mk (net.dotted a b c d)) "good" = true := by
    unfold strings.Contains
    rw [hdata]
    rfl
  have hsearch : searchFor ip ("good " ++ String.mk (net.dotted a b c d)) =
      [String.mk (net.dotted a b c d)] := by
    unfold searchFor
    rw [h4]
    exact verification.SearchIPv4_good a b c d
  rw [outcome_accepted env p ip _ htok (Or.inr hacc), hsearch]
  simp only [net.ParseIP_dotted, net.Equal_of_To4 ip a b c d h4]
  simp

/-- C1: for every IPv4 address (a byte slice whose `To4` is not nil), when the
vendor answers HTTP 200 with the body `good ` followed by the dotted-decimal text
of that address, `Update` called with it returns the address (in the 16-byte form
that `net.ParseIP` yields, equal to the requested one by `IP.Equal`) and no error.
This holds with use-provider-IP disabled, and in the other mode as well. -/
theorem update_good_requested (env : Env) (p : Provider IPVersion)
    (client : http.Client) (ip : net.IP) (a b c d : Fin 256)
    (h4 : net.IP.To4 ip = some [a, b, c, d])
    (hresp : client.Do (p.request env ip) = .ok ⟨200, .ok ("good " ++ net.IP.String ip)⟩) :
    p.Update env client ip = .ok (net.IPv4 a b c d) ∧
      net.IP.Equal ip (net.IPv4 a b c d) = true ∧
      net.IP.String (net.IPv4 a b c d) = net.IP.String ip := by
  refine ⟨?_, net.Equal_of_To4 ip a b c d h4, ?_⟩
  · rw [Update_of_response env p client ip 200 _ hresp]
    exact outcome_good env p ip a b c d h4
  · rw [net.String_of_To4 ip a b c d h4]
    exact net.String_of_To4 (net.IPv4 a b c d) a b c d rfl

/-- Witness of C1: body `good 203.0.113.5`, requested 203.0.113.5, use-provider-IP
disabled. -/
theorem update_good_requested_witness :
    (sampleProvider "www" false).Update sampleEnv (answering 200 "good 203.0.113.5") ip5 =
      .ok (net.IPv4 203 0 113 5) :=
  (update_good_requested sampleEnv (sampleProvider "www" false)
    (answering 200 "good 203.0.113.5") ip5 203 0 113 5 rfl rfl).1

/-- C2: with use-provider-IP disabled, `Update` never returns an IP different from
the requested one. At HTTP 200, for every body that passes the classification and
whose first extracted literal parses to an address not equal to the requested IP,
`Update` fails with an error wrapping `ErrIPReceivedMismatch` that carries the
address received; and every successful result is equal to the requested IP. -/
theorem update_mismatch (env : Env) (p : Provider IPVersion) (client : http.Client)
    (ip : net.IP) (hmode : p.useProviderIP = false) :
    (∀ (s ips0 : String) (rest : List String) (newIP : net.IP),
      client.Do (p.request env ip) = .ok ⟨200, .ok s⟩ →
      s ∉ failureTokens →
      (strings.Contains s "nochg" = true ∨ strings.Contains s "good" = true) →
      searchFor ip s = ips0 :: rest →
      net.ParseIP env.strictIPv4 ips0 = some newIP →
      net.IP.Equal ip newIP = false →
      p.Update env client ip =
        .error (.Errorf .ErrIPReceivedMismatch (": " ++ net.IP.String newIP))) ∧
    (∀ newIP : net.IP, p.Update env client ip = .ok newIP →
      net.IP.Equal ip newIP = true) := by
  constructor
  · intro s ips0 rest newIP hresp htok hacc hsearch hparse hneq
    rw [Update_of_response env p client ip 200 s hresp,
      outcome_accepted env p ip s htok hacc, hsearch]
    simp [hparse, hmode, hneq]
  · intro newIP h
    obtain ⟨status, s, -, hout⟩ := Update_ok_inv env p client ip newIP h
    obtain ⟨-, -, -, -, heq⟩ := outcome_ok_inv env p ip status s newIP hout
    rcases heq with heq | heq
    · rw [hmode] at heq
      exact absurd heq (by decide)
    · exact heq

/-- Witness of C2: body `good 203.0.113.9`, requested 203.0.113.5. -/
theorem update_mismatch_witness :
    (sampleProvider "www" false).Update sampleEnv (answering 200 "good 203.0.113.9") ip5 =
      .error (.Errorf .ErrIPReceivedMismatch (": " ++ net.IP.String ip9)) :=
  (update_mismatch sampleEnv (sampleProvider "www" false)
    (answering 200 "good 203.0.113.9") ip5 rfl).1 "good 203.0.113.9" "203.0.113.9" [] ip9
    rfl (by decide) (by decide) (by rfl) (by rfl) (by decide)

/-- C4, as stated, fails: at status 201, a 2xx status, the body is not classified.
The body `badauth` gives the bad-status error instead of `ErrAuth`, and the body
`good 203.0.113.5` with requested 203.0.113.5 gives it instead of a success. -/
theorem status_201_not_classified :
    ((sampleProvider "www" false).Update sampleEnv (answering 201 "badauth") ip5 =
        .error (.Errorf .ErrBadHTTPStatus ": 201: badauth") ∧
      (sampleProvider "www" false).Update sampleEnv (answering 201 "badauth") ip5 ≠
        .error (.sentinel .ErrAuth)) ∧
    ((sampleProvider "www" false).Update sampleEnv (answering 201 "good 203.0.113.5") ip5 =
        .error (.Errorf .ErrBadHTTPStatus ": 201: good 203.0.113.5") ∧
      (sampleProvider "www" false).Update sampleEnv (answering 201 "good 203.0.113.5") ip5 ≠
        .ok (net.IPv4 203 0 113 5)) := by
  have h1 : (sampleProvider "www" false).Update sampleEnv (answering 201 "badauth") ip5 =
      .error (.Errorf .ErrBadHTTPStatus ": 201: badauth") := by rfl
  have h2 : (sampleProvider "www" false).Update sampleEnv
      (answering 201 "good 203.0.113.5") ip5 =
      .error (.Errorf .ErrBadHTTPStatus ": 201: good 203.0.113.5") := by rfl
  refine ⟨⟨h1, ?_⟩, ⟨h2, ?_⟩⟩
  · rw [h1]
    simp
  · rw [h2]
    simp

/-- C4, amended: only a response with status exactly 200 is passed to body
classification. At status 200 the body `badauth` yields `ErrAuth` and the body
`good ` followed by the text of the requested IPv4 address yields success; at
every other status, the other 2xx statuses included, `Update` fails with an error
wrapping `ErrBadHTTPStatus`. -/
theorem update_only_200_classified (env : Env) (p : Provider IPVersion)
    (client : http.Client) (ip : net.IP) (status : Int) (s : String)
    (hresp : client.Do (p.request env ip) = .ok ⟨status, .ok s⟩) :
    (status = 200 → s = "badauth" →
      p.Update env client ip = .error (.sentinel .ErrAuth)) ∧
    (status = 200 → ∀ a b c d : Fin 256, net.IP.To4 ip = some [a, b, c, d] →
      s = "good " ++ net.IP.String ip →
      p.Update env client ip = .ok (net.IPv4 a b c d)) ∧
    (status ≠ 200 →
      p.Update env client ip =
        .error (.Errorf .ErrBadHTTPStatus (": " ++ toString status ++ ": " ++ s))) := by
  rw [Update_of_response env p client ip status s hresp]
  refine ⟨?_, ?_, ?_⟩
  · intro hst hs
    subst hst hs
    simp [Provider.outcome, http.StatusOK, constants.Nohost, constants.Notfqdn,
      constants.Badauth]
  · intro hst a b c d h4 hs
    subst hst hs
    exact outcome_good env p ip a b c d h4
  · intro hst
    simp [Provider.outcome, http.StatusOK, hst]

/-- Witness of the amended C4: status 200 and body `good 203.0.113.5`. -/
theorem update_only_200_classified_witness :
    (sampleProvider "www" true).Update sampleEnv (answering 200 "good 203.0.113.5") ip5 =
      .ok (net.IPv4 203 0 113 5) :=
  (update_only_200_classified sampleEnv (sampleProvider "www" true)
    (answering 200 "good 203.0.113.5") ip5 200 "good 203.0.113.5" rfl).2.1 rfl
    203 0 113 5 rfl rfl

end dnsomatic

/-! ## The matches of classes, repetitions and anchored patterns -/

namespace regexp

/-- A class matches exactly one character that it accepts. -/
theorem mem_run_cls (neg : Bool) (rs : List (Char × Char)) (s t : List Char) :
    t ∈ (Regex.cls neg rs).run s ↔ ∃ c, s = c :: t ∧ classMatches neg rs c = true := by
  cases s with
  | nil => simp [Regex.run]
  | cons c cs =>
    simp only [Regex.run]
    by_cases h : classMatches neg rs c = true
    · simp only [h, if_true, List.mem_singleton, List.cons.injEq]
      constructor
      · intro ht
        exact ⟨c, ⟨rfl, ht.symm⟩, h⟩
      · rintro ⟨d, ⟨hd, ht⟩, -⟩
        exact ht.symm
    · simp only [h, if_false, Bool.false_eq_true, List.not_mem_nil, false_iff]
      rintro ⟨d, hd, hm⟩
      simp only [List.cons.injEq] at hd
      rw [← hd.1] at hm
      exact h hm

/-- A match of a concatenation is a match of the first part followed by a match of
the second. -/
theorem mem_run_cat (a b : Regex) (s t : List Char) :
    t ∈ (Regex.cat a b).run s ↔ ∃ u, u ∈ a.run s ∧ t ∈ b.run u := by
  simp [Regex.run, List.mem_flatMap]

/-- The matches of `x{n}` for a class `x`: exactly `n` characters of the class. -/
theorem mem_run_times_cls (neg : Bool) (rs : List (Char × Char)) :
    ∀ (n : Nat) (s t : List Char),
      t ∈ (Regex.times (Regex.cls neg rs) n).run s ↔
        ∃ w : List Char, w.length = n ∧ (∀ c ∈ w, classMatches neg rs c = true) ∧
          s = w ++ t := by
  intro n
  induction n with
  | zero =>
    intro s t
    simp only [Regex.times, Regex.run, List.mem_singleton]
    constructor
    · intro h
      exact ⟨[], rfl, by simp, by simp [h]⟩
    · rintro ⟨w, hw, -, hs⟩
      have : w = [] := List.length_eq_zero.1 hw
      subst this
      simpa using hs.symm
  | succ n ih =>
    intro s t
    simp only [Regex.times]
    rw [mem_run_cat]
    constructor
    · rintro ⟨u, hu, ht⟩
      obtain ⟨c, hs, hc⟩ := (mem_run_cls neg rs s u).1 hu
      obtain ⟨w, hw, hall, hu2⟩ := (ih u t).1 ht
      refine ⟨c :: w, by simp [hw], ?_, by simp [hs, hu2]⟩
      intro d hd
      rcases List.mem_cons.1 hd with h | h
      · rw [h]
        exact hc
      · exact hall d h
    · rintro ⟨w, hw, hall, hs⟩
      cases w with
      | nil => simp at hw
      | cons c w =>
        refine ⟨w ++ t, (mem_run_cls neg rs s (w ++ t)).2 ⟨c, by simpa using hs, ?_⟩, ?_⟩
        · exact hall c (List.mem_cons_self c w)
        · refine (ih (w ++ t) t).2 ⟨w, by simpa using hw, ?_, rfl⟩
          intro d hd
          exact hall d (List.mem_cons_of_mem c hd)

/-- The matches of `x{0,k}` for a class `x`: at most `k` characters of the class. -/
theorem mem_run_upTo_cls (neg : Bool) (rs : List (Char × Char)) :
    ∀ (k : Nat) (s t : List Char),
      t ∈ (Regex.upTo (Regex.cls neg rs) k).run s ↔
        ∃ w : List Char, w.length ≤ k ∧ (∀ c ∈ w, classMatches neg rs c = true) ∧
          s = w ++ t := by
  intro k
  induction k with
  | zero =>
    intro s t
    simp only [Regex.upTo, Regex.run, List.mem_singleton]
    constructor
    · intro h
      exact ⟨[], by simp, by simp, by simp [h]⟩
    · rintro ⟨w, hw, -, hs⟩
      have : w = [] := List.length_eq_zero.1 (Nat.le_zero.1 hw)
      subst this
      simpa using hs.symm
  | succ k ih =>
    intro s t
    simp only [Regex.upTo]
    have hopt : t ∈ (Regex.opt (Regex.cat (Regex.cls neg rs)
        (Regex.upTo (Regex.cls neg rs) k))).run s ↔
        t ∈ (Regex.cat (Regex.cls neg rs) (Regex.upTo (Regex.cls neg rs) k)).run s ∨
          t = s := by
      simp [Regex.run]
    rw [hopt, mem_run_cat]
    constructor
    · rintro (⟨u, hu, ht⟩ | ht)
      · obtain ⟨c, hs, hc⟩ := (mem_run_cls neg rs s u).1 hu
        obtain ⟨w, hw, hall, hu2⟩ := (ih u t).1 ht
        refine ⟨c :: w, by simp [hw], ?_, by simp [hs, hu2]⟩
        intro d hd
        rcases List.mem_cons.1 hd with h | h
        · rw [h]
          exact hc
        · exact hall d h
      · exact ⟨[], by simp, by simp, by simp [ht]⟩
    · rintro ⟨w, hw, hall, hs⟩
      cases w with
      | nil =>
        right
        simpa using hs.symm
      | cons c w =>
        left
        refine ⟨w ++ t, (mem_run_cls neg rs s (w ++ t)).2 ⟨c, by simpa using hs, ?_⟩, ?_⟩
        · exact hall c (List.mem_cons_self c w)
        · refine (ih (w ++ t) t).2 ⟨w, ?_, ?_, rfl⟩
          · simp only [List.length_cons] at hw
            omega
          · intro d hd
            exact hall d (List.mem_cons_of_mem c hd)

/-- The matches of `x{n,m}` for a class `x` and `n ≤ m`: between `n` and `m`
characters of the class. -/
theorem mem_run_rep_cls (neg : Bool) (rs : List (Char × Char)) (n m : Nat) (hnm : n ≤ m)
    (s t : List Char) :
    t ∈ (Regex.rep (Regex.cls neg rs) n m).run s ↔
      ∃ w : List Char, n ≤ w.length ∧ w.length ≤ m ∧
        (∀ c ∈ w, classMatches neg rs c = true) ∧ s = w ++ t := by
  unfold Regex.rep
  rw [mem_run_cat]
  constructor
  · rintro ⟨u, hu, ht⟩
    obtain ⟨w1, hw1, hall1, hs⟩ := (mem_run_times_cls neg rs n s u).1 hu
    obtain ⟨w2, hw2, hall2, hu2⟩ := (mem_run_upTo_cls neg rs (m - n) u t).1 ht
    refine ⟨w1 ++ w2, ?_, ?_, ?_, by simp [hs, hu2]⟩
    · simp only [List.length_append]
      omega
    · simp only [List.length_append]
      omega
    · intro c hc
      rcases List.mem_append.1 hc with h | h
      · exact hall1 c h
      · exact hall2 c h
  · rintro ⟨w, hn, hm, hall, hs⟩
    refine ⟨w.drop n ++ t, (mem_run_times_cls neg rs n s _).2 ⟨w.take n, ?_, ?_, ?_⟩,
      (mem_run_upTo_cls neg rs (m - n) _ t).2 ⟨w.drop n, ?_, ?_, rfl⟩⟩
    · simp only [List.length_take]
      omega
    · intro c hc
      exact hall c (List.mem_of_mem_take hc)
    · rw [← List.append_assoc, List.take_append_drop]
      exact hs
    · simp only [List.length_drop]
      omega
    · intro c hc
      exact hall c (List.mem_of_mem_drop hc)

/-- The loop of `x+` for a class `x`, with enough fuel: one or more characters of
the class. -/
theorem mem_plusRun_cls (neg : Bool) (rs : List (Char × Char)) :
    ∀ (fuel : Nat) (s t : List Char), s.length < fuel →
      (t ∈ plusRun (fun u => (Regex.cls neg rs).run u) fuel s ↔
        ∃ w : List Char, w ≠ [] ∧ (∀ c ∈ w, classMatches neg rs c = true) ∧
          s = w ++ t) := by
  intro fuel
  induction fuel with
  | zero =>
    intro s t h
    omega
  | succ fuel ih =>
    intro s t hfuel
    simp only [plusRun, List.mem_flatMap, List.mem_append, List.mem_singleton]
    constructor
    · rintro ⟨u, hu, ht⟩
      obtain ⟨c, hs, hc⟩ := (mem_run_cls neg rs s u).1 hu
      have hlen : u.length < fuel := by
        rw [hs] at hfuel
        simp only [List.length_cons] at hfuel
        omega
      have hlt : u.length < s.length := by
        rw [hs]
        simp
      rcases ht with ht | ht
      · rw [if_pos hlt] at ht
        obtain ⟨w, -, hall, hu2⟩ := (ih u t hlen).1 ht
        refine ⟨c :: w, by simp, ?_, by simp [hs, hu2]⟩
        intro d hd
        rcases List.mem_cons.1 hd with h | h
        · rw [h]
          exact hc
        · exact hall d h
      · refine ⟨[c], by simp, ?_, by simp [hs, ht]⟩
        intro d hd
        rw [List.mem_singleton.1 hd]
        exact hc
    · rintro ⟨w, hne, hall, hs⟩
      cases w with
      | nil => exact absurd rfl hne
      | cons c w =>
        have hu : (w ++ t) ∈ (Regex.cls neg rs).run s :=
          (mem_run_cls neg rs s (w ++ t)).2
            ⟨c, by simpa using hs, hall c (List.mem_cons_self c w)⟩
        refine ⟨w ++ t, hu, ?_⟩
        have hlt : (w ++ t).length < s.length := by
          rw [hs]
          simp
        have hlen : (w ++ t).length < fuel := by omega
        by_cases hw : w = []
        · right
          simp [hw]
        · left
          rw [if_pos hlt]
          exact (ih (w ++ t) t hlen).2
            ⟨w, hw, fun d hd => hall d (List.mem_cons_of_mem c hd), rfl⟩

/-- The matches of `x+` for a class `x`: one or more characters of the class. -/
theorem mem_run_plus_cls (neg : Bool) (rs : List (Char × Char)) (s t : List Char) :
    t ∈ (Regex.plus (Regex.cls neg rs)).run s ↔
      ∃ w : List Char, w ≠ [] ∧ (∀ c ∈ w, classMatches neg rs c = true) ∧ s = w ++ t := by
  simp only [Regex.run]
  exact mem_plusRun_cls neg rs (s.length + 1) s t (Nat.lt_succ_self _)

/-- A pattern `^x$` matches a text exactly when some match of `x` at the start of
the text consumes all of it. -/
theorem MatchString_anchored (x : Regex) (s : String) :
    Regexp.MatchString ⟨true, x, true⟩ s = true ↔ [] ∈ x.run s.data := by
  simp [Regexp.MatchString, Regexp.matchesAt]

/-- The literal character `x` matches that character only. -/
theorem classMatches_chr (x c : Char) : classMatches false [(x, x)] c = true ↔ c = x := by
  simp only [classMatches, inRanges, List.any_cons, List.any_nil, Bool.or_false,
    Bool.and_eq_true, decide_eq_true_eq, Bool.false_eq_true, if_false]
  constructor
  · rintro ⟨h1, h2⟩
    exact Char.le_antisymm h2 h1
  · intro h
    rw [h]
    exact ⟨Char.le_refl _, Char.le_refl _⟩

/-- A literal character matches exactly that character. -/
theorem mem_run_chr (x : Char) (s t : List Char) : t ∈ (chr x).run s ↔ s = x :: t := by
  unfold chr
  rw [mem_run_cls]
  constructor
  · rintro ⟨c, hs, hc⟩
    rw [(classMatches_chr x c).1 hc] at hs
    exact hs
  · intro hs
    exact ⟨x, hs, (classMatches_chr x x).2 rfl⟩

end regexp

/-! ## The credential matchers -/

namespace regex

open regexp

/-- The class `[A-Za-z0-9]` matches the ASCII letters and digits. -/
theorem classMatches_upperLowerDigit (c : Char) :
    classMatches false [('A', 'Z'), ('a', 'z'), ('0', '9')] c = true ↔ isAlnum c := by
  simp only [classMatches, inRanges, List.any_cons, List.any_nil, Bool.or_false,
    Bool.and_eq_true, Bool.or_eq_true, decide_eq_true_eq, Bool.false_eq_true, if_false,
    isAlnum]
  tauto

/-- The class `[a-zA-Z0-9]` matches the ASCII letters and digits. -/
theorem classMatches_lowerUpperDigit (c : Char) :
    classMatches false [('a', 'z'), ('A', 'Z'), ('0', '9')] c = true ↔ isAlnum c := by
  simp only [classMatches, inRanges, List.any_cons, List.any_nil, Bool.or_false,
    Bool.and_eq_true, Bool.or_eq_true, decide_eq_true_eq, Bool.false_eq_true, if_false,
    isAlnum]
  tauto

/-- The class `[a-f0-9]` matches the decimal digits and the letters `a` to `f`. -/
theorem classMatches_lowerHex (c : Char) :
    classMatches false [('a', 'f'), ('0', '9')] c = true ↔ isLowerHex c := by
  simp only [classMatches, inRanges, List.any_cons, List.any_nil, Bool.or_false,
    Bool.and_eq_true, Bool.or_eq_true, decide_eq_true_eq, Bool.false_eq_true, if_false,
    isLowerHex]
  tauto

/-- The class `.` matches every character but the newline. -/
theorem classMatches_anyCharNotNL (c : Char) :
    classMatches true [('\n', '\n')] c = true ↔ c ≠ '\n' := by
  have h := classMatches_chr '\n' c
  simp only [classMatches, Bool.false_eq_true, if_false] at h
  simp only [classMatches, if_true, Bool.not_eq_true', ne_eq]
  rw [← h]
  cases inRanges [('\n', '\n')] c <;> simp

/-- The matcher returned by `NewMatcher` is `patterns`. -/
theorem NewMatcher_ok (m : matcher) (hm : NewMatcher = .ok m) : m = patterns := by
  unfold NewMatcher at hm
  injection hm with h
  exact h.symm

/-- A text has at most one decomposition around the first occurrence of `x`. -/
theorem split_unique (x : Char) :
    ∀ (w1 v1 w2 v2 : List Char), (∀ c ∈ w1, c ≠ x) → (∀ c ∈ v1, c ≠ x) →
      w1 ++ x :: w2 = v1 ++ x :: v2 → w1 = v1 ∧ w2 = v2 := by
  intro w1
  induction w1 with
  | nil =>
    intro v1 w2 v2 _ hv h
    cases v1 with
    | nil => simpa using h
    | cons d v1 =>
      simp only [List.nil_append, List.cons_append, List.cons.injEq] at h
      exact absurd h.1.symm (hv d (List.mem_cons_self d v1))
  | cons c w1 ih =>
    intro v1 w2 v2 hw hv h
    cases v1 with
    | nil =>
      simp only [List.nil_append, List.cons_append, List.cons.injEq] at h
      exact absurd h.1 (hw c (List.mem_cons_self c w1))
    | cons d v1 =>
      simp only [List.cons_append, List.cons.injEq] at h
      obtain ⟨h1, h2⟩ := ih v1 w2 v2 (fun e he => hw e (List.mem_cons_of_mem c he))
        (fun e he => hv e (List.mem_cons_of_mem d he)) h.2
      exact ⟨by rw [h.1, h1], h2⟩

/-- `GodaddyKey` accepts exactly the texts of the shape given by the spec. -/
theorem GodaddyKey_iff_shape (s : String) :
    patterns.GodaddyKey s = true ↔ GodaddyKeyShape s.data := by
  unfold matcher.GodaddyKey patterns GodaddyKeyShape
  simp only [MatchString_anchored, mem_run_cat, mem_run_chr, upperLowerDigit]
  constructor
  · rintro ⟨u, hu, v, hv, hw⟩
    obtain ⟨w1, h10, h14, hall1, hs⟩ := (mem_run_rep_cls _ _ 10 14 (by decide) _ _).1 hu
    obtain ⟨w2, h22, hall2, hv2⟩ := (mem_run_times_cls _ _ 22 _ _).1 hw
    refine ⟨w1, w2, ?_, h10, h14, h22,
      fun c hc => (classMatches_upperLowerDigit c).1 (hall1 c hc),
      fun c hc => (classMatches_upperLowerDigit c).1 (hall2 c hc)⟩
    rw [hs, hv, hv2]
    simp
  · rintro ⟨w1, w2, hs, h10, h14, h22, hall1, hall2⟩
    refine ⟨'_' :: w2, (mem_run_rep_cls _ _ 10 14 (by decide) _ _).2
      ⟨w1, h10, h14, fun c hc => (classMatches_upperLowerDigit c).2 (hall1 c hc), hs⟩,
      w2, rfl, (mem_run_times_cls _ _ 22 _ _).2
        ⟨w2, h22, fun c hc => (classMatches_upperLowerDigit c).2 (hall2 c hc), by simp⟩⟩

/-- C12: `GodaddyKey(s)` is true exactly when `s` is 10 to 14 ASCII alphanumerics,
one underscore and 22 ASCII alphanumerics. Hence every accepted string has a
length between 33 and 37; a string with fewer than 10 or more than 14
alphanumerics before its first underscore is rejected, as are a string without
an underscore and every string that starts or ends with a character that is not
alphanumeric, such as a newline. -/
theorem GodaddyKey_spec (m : matcher) (hm : NewMatcher = .ok m) (s : String) :
    (m.GodaddyKey s = true ↔ GodaddyKeyShape s.data) ∧
    (m.GodaddyKey s = true → 33 ≤ s.length ∧ s.length ≤ 37) ∧
    (∀ w1 w2 : List Char, (∀ c ∈ w1, isAlnum c) → (w1.length < 10 ∨ 14 < w1.length) →
      m.GodaddyKey (String.mk (w1 ++ '_' :: w2)) = false) ∧
    ('_' ∉ s.data → m.GodaddyKey s = false) ∧
    (∀ c : Char, ¬ isAlnum c →
      m.GodaddyKey (String.mk (c :: s.data)) = false ∧
        m.GodaddyKey (String.mk (s.data ++ [c])) = false) := by
  have hmp := NewMatcher_ok m hm
  subst hmp
  have hu : ¬ isAlnum '_' := by decide
  have hreject : ∀ t : String, ¬ GodaddyKeyShape t.data → patterns.GodaddyKey t = false := by
    intro t ht
    cases h : patterns.GodaddyKey t
    · rfl
    · exact absurd ((GodaddyKey_iff_shape t).1 h) ht
  refine ⟨GodaddyKey_iff_shape s, ?_, ?_, ?_, ?_⟩
  · intro h
    obtain ⟨w1, w2, hs, h10, h14, h22, -, -⟩ := (GodaddyKey_iff_shape s).1 h
    have hlen : s.length = w1.length + (w2.length + 1) := by
      show s.data.length = _
      rw [hs]
      simp
    omega
  · intro w1 w2 hall hlen
    apply hreject
    rintro ⟨v1, v2, hs, h10, h14, -, hallv, -⟩
    have hne1 : ∀ c ∈ w1, c ≠ '_' := fun c hc h => hu (h ▸ hall c hc)
    have hne2 : ∀ c ∈ v1, c ≠ '_' := fun c hc h => hu (h ▸ hallv c hc)
    obtain ⟨h1, -⟩ := split_unique '_' w1 v1 w2 v2 hne1 hne2 hs
    rw [h1] at hlen
    omega
  · intro hno
    apply hreject
    rintro ⟨w1, w2, hs, -⟩
    apply hno
    rw [hs]
    simp
  · intro c hc
    constructor
    · apply hreject
      rintro ⟨w1, w2, hs, h10, -, -, hall, -⟩
      cases w1 with
      | nil => simp at h10
      | cons d w1 =>
        simp only [List.cons_append, List.cons.injEq] at hs
        exact hc (hs.1 ▸ hall d (List.mem_cons_self d w1))
    · apply hreject
      rintro ⟨w1, w2, hs, -, -, h22, -, hall⟩
      have hne : w2 ≠ [] := by
        intro h
        rw [h] at h22
        simp at h22
      have hw2 := List.dropLast_append_getLast hne
      have heq : s.data ++ [c] = (w1 ++ '_' :: w2.dropLast) ++ [w2.getLast hne] := by
        rw [List.append_assoc, List.cons_append, hw2]
        exact hs
      have hc2 : c = w2.getLast hne := by
        have h := (List.append_inj' heq rfl).2
        simpa using h
      exact hc (hc2 ▸ hall _ (List.getLast_mem hne))

/-- Witness of C12: an accepted key of length 33, and the same key followed by a
newline, which is rejected. -/
theorem GodaddyKey_spec_witness :
    (33 ≤ "abcdefghij_0123456789abcdefABCDEF".length ∧
        "abcdefghij_0123456789abcdefABCDEF".length ≤ 37) ∧
      patterns.GodaddyKey
        (String.mk ("abcdefghij_0123456789abcdefABCDEF".data ++ ['\n'])) = false :=
  ⟨(GodaddyKey_spec patterns rfl "abcdefghij_0123456789abcdefABCDEF").2.1 (by decide),
    ((GodaddyKey_spec patterns rfl "abcdefghij_0123456789abcdefABCDEF").2.2.2.2 '\n'
      (by decide)).2⟩

/-- `DuckDNSToken` accepts exactly the texts of the shape given by the spec. -/
theorem DuckDNSToken_iff_shape (s : String) :
    patterns.DuckDNSToken s = true ↔ DuckDNSTokenShape s.data := by
  unfold matcher.DuckDNSToken patterns DuckDNSTokenShape
  simp only [MatchString_anchored, mem_run_cat, mem_run_chr, lowerHex, mem_run_times_cls]
  constructor
  · rintro ⟨u1, ⟨g1, h1, a1, e1⟩, u2, e2, u3, ⟨g2, h2, a2, e3⟩, u4, e4, u5,
      ⟨g3, h3, a3, e5⟩, u6, e6, u7, ⟨g4, h4, a4, e7⟩, u8, e8, g5, h5, a5, e9⟩
    refine ⟨g1, g2, g3, g4, g5, ?_, h1, h2, h3, h4, h5,
      fun c hc => (classMatches_lowerHex c).1 (a1 c hc),
      fun c hc => (classMatches_lowerHex c).1 (a2 c hc),
      fun c hc => (classMatches_lowerHex c).1 (a3 c hc),
      fun c hc => (classMatches_lowerHex c).1 (a4 c hc),
      fun c hc => (classMatches_lowerHex c).1 (a5 c hc)⟩
    rw [e1, e2, e3, e4, e5, e6, e7, e8, e9]
    simp
  · rintro ⟨g1, g2, g3, g4, g5, hs, h1, h2, h3, h4, h5, a1, a2, a3, a4, a5⟩
    exact ⟨_, ⟨g1, h1, fun c hc => (classMatches_lowerHex c).2 (a1 c hc), hs⟩,
      _, rfl, _, ⟨g2, h2, fun c hc => (classMatches_lowerHex c).2 (a2 c hc), rfl⟩,
      _, rfl, _, ⟨g3, h3, fun c hc => (classMatches_lowerHex c).2 (a3 c hc), rfl⟩,
      _, rfl, _, ⟨g4, h4, fun c hc => (classMatches_lowerHex c).2 (a4 c hc), rfl⟩,
      _, rfl, g5, h5, fun c hc => (classMatches_lowerHex c).2 (a5 c hc), by simp⟩

/-- An uppercase hexadecimal letter is not a character of `[0-9a-f]`. -/
theorem upper_not_lowerHex (c : Char) (hA : 'A' ≤ c) (hF : c ≤ 'F') : ¬ isLowerHex c := by
  rintro (⟨-, h9⟩ | ⟨ha, -⟩)
  · exact absurd (Char.le_trans hA h9) (by decide)
  · exact absurd (Char.le_trans ha hF) (by decide)

/-- C13: `DuckDNSToken(s)` is true exactly when `s` is made of five groups of 8, 4,
4, 4 and 12 characters of `[0-9a-f]` separated by single hyphens, 36 characters in
all; the match is case-sensitive, so a token that contains an uppercase
hexadecimal letter `A` to `F` is rejected. -/
theorem DuckDNSToken_spec (m : matcher) (hm : NewMatcher = .ok m) (s : String) :
    (m.DuckDNSToken s = true ↔ DuckDNSTokenShape s.data) ∧
    (m.DuckDNSToken s = true → s.length = 36) ∧
    (∀ c ∈ s.data, 'A' ≤ c ∧ c ≤ 'F' → m.DuckDNSToken s = false) := by
  have hmp := NewMatcher_ok m hm
  subst hmp
  refine ⟨DuckDNSToken_iff_shape s, ?_, ?_⟩
  · intro h
    obtain ⟨g1, g2, g3, g4, g5, hs, h1, h2, h3, h4, h5, -⟩ := (DuckDNSToken_iff_shape s).1 h
    show s.data.length = 36
    rw [hs]
    simp only [List.length_append, List.length_cons]
    omega
  · intro c hc hupper
    cases h : patterns.DuckDNSToken s
    · rfl
    · exfalso
      obtain ⟨g1, g2, g3, g4, g5, hs, -, -, -, -, -, a1, a2, a3, a4, a5⟩ :=
        (DuckDNSToken_iff_shape s).1 h
      have hnot := upper_not_lowerHex c hupper.1 hupper.2
      have hdash : c ≠ '-' := by
        intro hd
        rw [hd] at hupper
        exact absurd hupper.1 (by decide)
      rw [hs] at hc
      simp only [List.mem_append, List.mem_cons] at hc
      rcases hc with hc | hc | hc | hc | hc | hc | hc | hc | hc
      · exact hnot (a1 c hc)
      · exact hdash hc
      · exact hnot (a2 c hc)
      · exact hdash hc
      · exact hnot (a3 c hc)
      · exact hdash hc
      · exact hnot (a4 c hc)
      · exact hdash hc
      · exact hnot (a5 c hc)

/-- Witness of C13: a token in lowercase is accepted and has 36 characters; with
one uppercase letter it is rejected. -/
theorem DuckDNSToken_spec_witness :
    "01234567-89ab-cdef-0123-456789abcdef".length = 36 ∧
      patterns.DuckDNSToken "01234567-89Ab-cdef-0123-456789abcdef" = false :=
  ⟨(DuckDNSToken_spec patterns rfl "01234567-89ab-cdef-0123-456789abcdef").2.1 (by decide),
    (DuckDNSToken_spec patterns rfl "01234567-89Ab-cdef-0123-456789abcdef").2.2 'A'
      (by decide) (by decide)⟩

/-- A pattern `^x{n}$` for a class `x` accepts exactly the texts of `n` characters
of the class. -/
theorem MatchString_times_cls (neg : Bool) (rs : List (Char × Char)) (n : Nat)
    (P : Char → Prop) (hP : ∀ c, classMatches neg rs c = true ↔ P c) (s : String) :
    Regexp.MatchString ⟨true, Regex.times (Regex.cls neg rs) n, true⟩ s = true ↔
      s.length = n ∧ ∀ c ∈ s.data, P c := by
  rw [MatchString_anchored, mem_run_times_cls]
  constructor
  · rintro ⟨w, hw, hall, hs⟩
    have hsw : s.data = w := by simpa using hs
    refine ⟨?_, ?_⟩
    · show s.data.length = n
      rw [hsw]
      exact hw
    · intro c hc
      rw [hsw] at hc
      exact (hP c).1 (hall c hc)
  · rintro ⟨hlen, hall⟩
    exact ⟨s.data, hlen, fun c hc => (hP c).2 (hall c hc), by simp⟩

/-- A pattern `^x{n}$` for a class `x` rejects every text longer than `n`, whatever
it contains. -/
theorem MatchString_times_cls_longer (neg : Bool) (rs : List (Char × Char)) (n : Nat)
    (s : String) (pre post : List Char) (hne : pre ≠ [] ∨ post ≠ [])
    (h : Regexp.MatchString ⟨true, Regex.times (Regex.cls neg rs) n, true⟩ s = true) :
    Regexp.MatchString ⟨true, Regex.times (Regex.cls neg rs) n, true⟩
      (String.mk (pre ++ s.data ++ post)) = false := by
  have hlen := ((MatchString_times_cls neg rs n (fun c => classMatches neg rs c = true)
    (fun _ => Iff.rfl) s).1 h).1
  cases h2 : Regexp.MatchString ⟨true, Regex.times (Regex.cls neg rs) n, true⟩
      (String.mk (pre ++ s.data ++ post))
  · rfl
  · exfalso
    have hlen2 := ((MatchString_times_cls neg rs n
      (fun c => classMatches neg rs c = true) (fun _ => Iff.rfl) _).1 h2).1
    have hl : (String.mk (pre ++ s.data ++ post)).length =
        pre.length + s.length + post.length := by
      show (pre ++ s.data ++ post).length = pre.length + s.data.length + post.length
      simp only [List.length_append]
    have hpos : 0 < pre.length + post.length := by
      rcases hne with h | h
      · have := List.length_pos.2 h
        omega
      · have := List.length_pos.2 h
        omega
    omega

/-- C14: the three fixed-length matchers accept exactly the strings of the stated
length over the stated alphabet: `GodaddySecret` 22 ASCII alphanumerics,
`NamecheapPassword` 32 characters of `[0-9a-f]`, `DreamhostKey` 16 ASCII
alphanumerics. No string that contains an accepted string together with anything
before or after it (a trailing newline, surrounding whitespace) is accepted. -/
theorem fixed_length_matchers (m : matcher) (hm : NewMatcher = .ok m) (s : String) :
    (m.GodaddySecret s = true ↔ s.length = 22 ∧ ∀ c ∈ s.data, isAlnum c) ∧
    (m.NamecheapPassword s = true ↔ s.length = 32 ∧ ∀ c ∈ s.data, isLowerHex c) ∧
    (m.DreamhostKey s = true ↔ s.length = 16 ∧ ∀ c ∈ s.data, isAlnum c) ∧
    (∀ pre post : List Char, pre ≠ [] ∨ post ≠ [] →
      (m.GodaddySecret s = true →
        m.GodaddySecret (String.mk (pre ++ s.data ++ post)) = false) ∧
      (m.NamecheapPassword s = true →
        m.NamecheapPassword (String.mk (pre ++ s.data ++ post)) = false) ∧
      (m.DreamhostKey s = true →
        m.DreamhostKey (String.mk (pre ++ s.data ++ post)) = false)) := by
  have hmp := NewMatcher_ok m hm
  subst hmp
  refine ⟨?_, ?_, ?_, ?_⟩
  · exact MatchString_times_cls _ _ 22 isAlnum classMatches_upperLowerDigit s
  · exact MatchString_times_cls _ _ 32 isLowerHex classMatches_lowerHex s
  · exact MatchString_times_cls _ _ 16 isAlnum classMatches_lowerUpperDigit s
  · intro pre post hne
    exact ⟨MatchString_times_cls_longer _ _ 22 s pre post hne,
      MatchString_times_cls_longer _ _ 32 s pre post hne,
      MatchString_times_cls_longer _ _ 16 s pre post hne⟩

/-- Witness of C14: a Dreamhost key of 16 alphanumerics followed by a newline is
rejected. -/
theorem fixed_length_matchers_witness :
    patterns.DreamhostKey (String.mk ([] ++ "0123456789abcDEF".data ++ ['\n'])) = false :=
  ((fixed_length_matchers patterns rfl "0123456789abcDEF").2.2.2 [] ['\n']
    (Or.inr (by simp))).2.2 (by decide)

/-- C15: `CloudflareKey(s)` is true exactly when `s` is non-empty and each of its
characters is an ASCII letter or digit, whatever its length; the empty string is
rejected. -/
theorem CloudflareKey_spec (m : matcher) (hm : NewMatcher = .ok m) (s : String) :
    (m.CloudflareKey s = true ↔ s ≠ "" ∧ ∀ c ∈ s.data, isAlnum c) ∧
      m.CloudflareKey "" = false := by
  have hmp := NewMatcher_ok m hm
  subst hmp
  refine ⟨?_, by decide⟩
  unfold matcher.CloudflareKey patterns
  simp only [MatchString_anchored, lowerUpperDigit, mem_run_plus_cls]
  constructor
  · rintro ⟨w, hne, hall, hs⟩
    have hsw : s.data = w := by simpa using hs
    refine ⟨?_, ?_⟩
    · intro h
      rw [h] at hsw
      exact hne hsw.symm
    · intro c hc
      rw [hsw] at hc
      exact (classMatches_lowerUpperDigit c).1 (hall c hc)
  · rintro ⟨hne, hall⟩
    refine ⟨s.data, ?_, fun c hc => (classMatches_lowerUpperDigit c).2 (hall c hc), by simp⟩
    intro h
    apply hne
    exact String.ext h

/-- Witness of C15: a single letter is accepted. -/
theorem CloudflareKey_spec_witness : patterns.CloudflareKey "a" = true :=
  (CloudflareKey_spec patterns rfl "a").1.2 ⟨by decide, by decide⟩

/-- C16, as stated, fails: the text `v1.0` followed by a newline starts with the
four characters `v1.0` and goes on with one more character, and is rejected. -/
theorem CloudflareUserServiceKey_rejects_newline :
    NewMatcher = .ok patterns ∧
      (∃ rest : List Char, "v1.0\n".data = 'v' :: '1' :: '.' :: '0' :: rest ∧ rest ≠ []) ∧
      patterns.CloudflareUserServiceKey "v1.0\n" = false :=
  ⟨rfl, ⟨['\n'], rfl, by simp⟩, by decide⟩

/-- C16, amended: `CloudflareUserServiceKey(s)` is true exactly when `s` starts
with the four characters `v1.0` and goes on with one or more characters none of
which is a newline. The bare string `v1.0` is rejected, and `v1x0abc` is rejected
because the dot is literal. -/
theorem CloudflareUserServiceKey_spec (m : matcher) (hm : NewMatcher = .ok m)
    (s : String) :
    (m.CloudflareUserServiceKey s = true ↔
      ∃ rest : List Char, s.data = 'v' :: '1' :: '.' :: '0' :: rest ∧ rest ≠ [] ∧
        ∀ c ∈ rest, c ≠ '\n') ∧
      m.CloudflareUserServiceKey "v1.0" = false ∧
      m.CloudflareUserServiceKey "v1x0abc" = false := by
  have hmp := NewMatcher_ok m hm
  subst hmp
  refine ⟨?_, by decide, by decide⟩
  unfold matcher.CloudflareUserServiceKey patterns
  simp only [MatchString_anchored, mem_run_cat, mem_run_chr, anyCharNotNL, mem_run_plus_cls]
  constructor
  · rintro ⟨u1, e1, u2, e2, u3, e3, u4, e4, w, hne, hall, e5⟩
    refine ⟨w, ?_, hne, fun c hc => (classMatches_anyCharNotNL c).1 (hall c hc)⟩
    rw [e1, e2, e3, e4, e5]
    simp
  · rintro ⟨rest, hs, hne, hall⟩
    exact ⟨_, hs, _, rfl, _, rfl, _, rfl, rest, hne,
      fun c hc => (classMatches_anyCharNotNL c).2 (hall c hc), by simp⟩

/-- Witness of the amended C16: `v1.0abc` is accepted. -/
theorem CloudflareUserServiceKey_spec_witness :
    patterns.CloudflareUserServiceKey "v1.0abc" = true :=
  (CloudflareUserServiceKey_spec patterns rfl "v1.0abc").1.2
    ⟨['a', 'b', 'c'], rfl, by simp, by decide⟩

end regex

/-! ## Query parameters, order of validation, address family and exact tokens -/

namespace dnsomatic

variable {IPVersion : Type}

/-- The query parameters that `Update` sets, spelled out for each mode and host. -/
theorem request_query (env : Env) (p : Provider IPVersion) (ip : net.IP) :
    (p.request env ip).URL.Query =
      [("backmx", ["NOCHG"]), ("mx", ["NOCHG"])] ++
        (if p.host = "*" then [("wildcard", ["ON"]), ("hostname", [p.domain])]
          else [("hostname", [env.BuildURLQueryHostname p.host p.domain]),
            ("wildcard", ["NOCHG"])]) ++
        (if p.useProviderIP = true then [] else [("myip", [net.IP.String ip])]) := by
  simp only [Provider.request, Provider.values]
  cases p.useProviderIP <;> by_cases hs : p.host = "*" <;>
    simp [hs, url.Values.Set, List.filter]

/-- C11: the query of the request contains the `myip` parameter exactly when
use-provider-IP is disabled, and its value is then the text of the requested IP;
in both modes the query holds `mx=NOCHG`, `backmx=NOCHG`, one `wildcard` and one
`hostname` parameter, each key once, and no other key. -/
theorem request_query_parameters (env : Env) (p : Provider IPVersion) (ip : net.IP) :
    (url.Values.Has (p.request env ip).URL.Query "myip" = true ↔ p.useProviderIP = false) ∧
    (p.useProviderIP = false →
      url.Values.values (p.request env ip).URL.Query "myip" = [net.IP.String ip]) ∧
    url.Values.values (p.request env ip).URL.Query "mx" = ["NOCHG"] ∧
    url.Values.values (p.request env ip).URL.Query "backmx" = ["NOCHG"] ∧
    (url.Values.values (p.request env ip).URL.Query "wildcard").length = 1 ∧
    (url.Values.values (p.request env ip).URL.Query "hostname").length = 1 ∧
    ((p.request env ip).URL.Query.map Prod.fst).Nodup ∧
    (∀ k ∈ (p.request env ip).URL.Query.map Prod.fst,
      k = "mx" ∨ k = "backmx" ∨ k = "wildcard" ∨ k = "hostname" ∨
        (k = "myip" ∧ p.useProviderIP = false)) := by
  rw [request_query]
  cases p.useProviderIP <;> by_cases hs : p.host = "*" <;>
    simp [hs, url.Values.Has, url.Values.values, List.lookup]

/-- Witness of C11: with use-provider-IP disabled the value of `myip` is the text
of the requested IP. -/
theorem request_query_parameters_witness :
    url.Values.values ((sampleProvider "www" false).request sampleEnv ip5).URL.Query "myip" =
      [net.IP.String ip5] :=
  (request_query_parameters sampleEnv (sampleProvider "www" false) ip5).2.1 rfl

/-- C17: validation checks the username pattern, the password pattern, the empty
username and the empty password in this order, and the first failing check
decides. A username that fails its pattern yields an error wrapping
`ErrMalformedUsername` that carries the username, whatever the password; a
matching username with a password that fails its pattern yields
`ErrMalformedPassword`; `ErrEmptyUsername` is returned exactly when both fields
match and the username is empty; `ErrEmptyPassword` exactly when both match, the
username is non-empty and the password is empty. -/
theorem isValid_order (p : Provider IPVersion) :
    (p.matcher.DNSOMaticUsername p.username = false →
      p.isValid = some (.Errorf .ErrMalformedUsername (": " ++ p.username))) ∧
    (p.matcher.DNSOMaticUsername p.username = true →
      p.matcher.DNSOMaticPassword p.password = false →
      p.isValid = some (.sentinel .ErrMalformedPassword)) ∧
    (p.isValid = some (.sentinel .ErrEmptyUsername) ↔
      p.matcher.DNSOMaticUsername p.username = true ∧
        p.matcher.DNSOMaticPassword p.password = true ∧ p.username = "") ∧
    (p.isValid = some (.sentinel .ErrEmptyPassword) ↔
      p.matcher.DNSOMaticUsername p.username = true ∧
        p.matcher.DNSOMaticPassword p.password = true ∧ p.username ≠ "" ∧
        p.password = "") := by
  unfold Provider.isValid
  cases hu : p.matcher.DNSOMaticUsername p.username <;>
    cases hp : p.matcher.DNSOMaticPassword p.password <;>
    by_cases hue : p.username.utf8ByteSize = 0 <;>
    by_cases hpe : p.password.utf8ByteSize = 0 <;>
    simp [hue, hpe, ← utf8ByteSize_eq_zero]

/-- Witness of C17: a username that fails its pattern is reported first, although
the password fails its pattern too. -/
theorem isValid_order_witness :
    Provider.isValid (⟨"example.com", "www", (), "al", "", false, sampleMatcher⟩ :
        Provider Unit) =
      some (.Errorf .ErrMalformedUsername (": " ++ "al")) :=
  (isValid_order (⟨"example.com", "www", (), "al", "", false, sampleMatcher⟩ :
    Provider Unit)).1 rfl

/-- After the status check and the classification, `Update` is the extraction
applied to the literals found for the family of the requested IP. -/
theorem outcome_extraction (env : Env) (p : Provider IPVersion) (ip : net.IP) (s : String)
    (htok : s ∉ failureTokens)
    (hacc : strings.Contains s "nochg" = true ∨ strings.Contains s "good" = true) :
    p.outcome env ip 200 s = p.extraction env ip (searchFor ip s) := by
  rw [outcome_accepted env p ip s htok hacc]
  rfl

/-- C18: in use-provider-IP mode the address reported by the vendor is returned
without being compared with the requested one. At HTTP 200, for an accepted body
whose first literal of the requested family parses to an address, `Update`
returns that address for every requested IP, equal to it or not. -/
theorem update_returns_provider_ip (env : Env) (p : Provider IPVersion)
    (client : http.Client) (ip : net.IP) (s ips0 : String) (rest : List String)
    (b : net.IP) (hmode : p.useProviderIP = true)
    (hresp : client.Do (p.request env ip) = .ok ⟨200, .ok s⟩)
    (htok : s ∉ failureTokens)
    (hacc : strings.Contains s "nochg" = true ∨ strings.Contains s "good" = true)
    (hsearch : searchFor ip s = ips0 :: rest)
    (hparse : net.ParseIP env.strictIPv4 ips0 = some b) :
    p.Update env client ip = .ok b := by
  rw [Update_of_response env p client ip 200 s hresp,
    outcome_accepted env p ip s htok hacc, hsearch]
  simp [hparse, hmode]

/-- Witness of C18: body `good 203.0.113.9`, requested 203.0.113.5, success with
203.0.113.9. -/
theorem update_returns_provider_ip_witness :
    net.IP.Equal ip5 ip9 = false ∧
      (sampleProvider "www" true).Update sampleEnv (answering 200 "good 203.0.113.9") ip5 =
        .ok ip9 :=
  ⟨by decide,
    update_returns_provider_ip sampleEnv (sampleProvider "www" true)
      (answering 200 "good 203.0.113.9") ip5 "good 203.0.113.9" "203.0.113.9" [] ip9
      rfl rfl (by decide) (by decide) (by rfl) (by rfl)⟩

/-- C19: the address family searched in the body is chosen from the requested IP
alone. The configured `ipVersion` plays no part in `Update`; on an accepted body
IPv4 literals are searched when `To4` of the requested IP is not nil and IPv6
literals otherwise, and the first literal found decides. Hence a requested IP that
is not an IPv4 address with the body `good 203.0.113.5` gives `ErrNoIPInResponse`,
and the body `good 203.0.113.9 203.0.113.5` with requested 203.0.113.5 and
use-provider-IP disabled gives `ErrIPReceivedMismatch`. -/
theorem update_family_of_requested_ip (env : Env) (p : Provider IPVersion)
    (client : http.Client) (ip : net.IP) :
    (∀ v : IPVersion,
      Provider.Update env { p with ipVersion := v } client ip = p.Update env client ip) ∧
    (∀ s : String, client.Do (p.request env ip) = .ok ⟨200, .ok s⟩ →
      s ∉ failureTokens →
      (strings.Contains s "nochg" = true ∨ strings.Contains s "good" = true) →
      (net.IP.To4 ip ≠ none →
        p.Update env client ip = p.extraction env ip (verification.SearchIPv4 s)) ∧
      (net.IP.To4 ip = none →
        p.Update env client ip = p.extraction env ip (verification.SearchIPv6 s))) ∧
    (net.IP.To4 ip = none →
      client.Do (p.request env ip) = .ok ⟨200, .ok "good 203.0.113.5"⟩ →
      p.Update env client ip = .error (.sentinel .ErrNoIPInResponse)) ∧
    (p.useProviderIP = false → net.IP.To4 ip = some [203, 0, 113, 5] →
      client.Do (p.request env ip) = .ok ⟨200, .ok "good 203.0.113.9 203.0.113.5"⟩ →
      p.Update env client ip =
        .error (.Errorf .ErrIPReceivedMismatch ": 203.0.113.9")) := by
  refine ⟨fun v => rfl, ?_, ?_, ?_⟩
  · intro s hresp htok hacc
    rw [Update_of_response env p client ip 200 s hresp, outcome_extraction env p ip s htok hacc]
    constructor
    · intro h4
      cases h : net.IP.To4 ip with
      | none => exact absurd h h4
      | some l => simp [searchFor, h]
    · intro h4
      simp [searchFor, h4]
  · intro h4 hresp
    rw [Update_of_response env p client ip 200 _ hresp,
      outcome_extraction env p ip _ (by decide) (Or.inr (by decide))]
    have hs : searchFor ip "good 203.0.113.5" = [] := by
      unfold searchFor
      rw [h4]
      decide
    rw [hs]
    rfl
  · intro hmode h4 hresp
    rw [Update_of_response env p client ip 200 _ hresp,
      outcome_extraction env p ip _ (by decide) (Or.inr (by decide))]
    have hs : searchFor ip "good 203.0.113.9 203.0.113.5" =
        ["203.0.113.9", "203.0.113.5"] := by
      unfold searchFor
      rw [h4]
      decide
    have hp : net.ParseIP env.strictIPv4 "203.0.113.9" = some ip9 := by
      cases env.strictIPv4 <;> rfl
    have he : net.IP.Equal ip ip9 = false := by
      rcases net.To4_some ip 203 0 113 5 h4 with h | h <;> subst h <;> decide
    rw [hs]
    simp only [Provider.extraction, hp, hmode, he]
    rfl

/-- Witness of C19: the requested IP `2001:db8::1` and the body `good 203.0.113.5`. -/
theorem update_family_of_requested_ip_witness :
    (sampleProvider "www" false).Update sampleEnv (answering 200 "good 203.0.113.5")
        [0x20, 0x01, 0x0d, 0xb8, 0, 0, 0, 0, 0, 0, 0, 0, 0, 0, 0, 1] =
      .error (.sentinel .ErrNoIPInResponse) :=
  (update_family_of_requested_ip sampleEnv (sampleProvider "www" false)
    (answering 200 "good 203.0.113.5")
    [0x20, 0x01, 0x0d, 0xb8, 0, 0, 0, 0, 0, 0, 0, 0, 0, 0, 0, 1]).2.2.1 (by decide) rfl

/-- No failure token occurs inside another one. -/
theorem failureTokens_not_nested :
    ∀ a ∈ failureTokens, ∀ b ∈ failureTokens, strings.Contains a b = true → a = b := by
  decide

/-- C20: failure tokens are recognised only when the whole body is the token. At
HTTP 200 a body that contains a failure token together with any other character
is no failure token at all: `Update` fails with `ErrUnknownResponse` when the body
contains neither `nochg` nor `good`, and otherwise goes on to the extraction of
the IP, which can succeed. -/
theorem update_exact_tokens (env : Env) (p : Provider IPVersion) (client : http.Client)
    (ip : net.IP) (s tok : String)
    (hresp : client.Do (p.request env ip) = .ok ⟨200, .ok s⟩)
    (hmem : tok ∈ failureTokens) (hcont : strings.Contains s tok = true) (hne : s ≠ tok) :
    s ∉ failureTokens ∧
    (strings.Contains s "nochg" = false → strings.Contains s "good" = false →
      p.Update env client ip = .error (.Errorf .ErrUnknownResponse (": " ++ s))) ∧
    ((strings.Contains s "nochg" = true ∨ strings.Contains s "good" = true) →
      p.Update env client ip = p.extraction env ip (searchFor ip s)) := by
  have htok : s ∉ failureTokens := by
    intro hs
    exact hne (failureTokens_not_nested s hs tok hmem hcont)
  refine ⟨htok, ?_, ?_⟩
  · intro hnochg hgood
    rw [Update_of_response env p client ip 200 s hresp]
    obtain ⟨h1, h2, h3, h4, h5, h6, h7⟩ := (not_token_iff s).1 htok
    simp [Provider.outcome, http.StatusOK, constants.Nohost, constants.Notfqdn,
      constants.Badauth, constants.Badagent, constants.Abuse, constants.Nineoneone,
      h1, h2, h3, h4, h5, h6, h7, hnochg, hgood]
  · intro hacc
    rw [Update_of_response env p client ip 200 s hresp,
      outcome_extraction env p ip s htok hacc]

/-- Witness of C20: the body `badauth` followed by a newline is an unknown
response, and the body `nohost good 203.0.113.5` with requested 203.0.113.5 is a
success. -/
theorem update_exact_tokens_witness :
    (sampleProvider "www" false).Update sampleEnv (answering 200 "badauth\n") ip5 =
        .error (.Errorf .ErrUnknownResponse (": " ++ "badauth\n")) ∧
      (sampleProvider "www" false).Update sampleEnv
          (answering 200 "nohost good 203.0.113.5") ip5 =
        .ok (net.IPv4 203 0 113 5) :=
  ⟨(update_exact_tokens sampleEnv (sampleProvider "www" false) (answering 200 "badauth\n")
      ip5 "badauth\n" "badauth" rfl (by decide) (by decide) (by decide)).2.1
      (by decide) (by decide),
    ((update_exact_tokens sampleEnv (sampleProvider "www" false)
      (answering 200 "nohost good 203.0.113.5") ip5 "nohost good 203.0.113.5" "nohost" rfl
      (by decide) (by decide) (by decide)).2.2 (Or.inr (by decide))).trans (by rfl)⟩

end dnsomatic
